import Mathlib

/-!
# Verification of the ai_memory_protocol planner/executor core

A shallow embedding of the maintenance planner and executor of the
`ai_memory_protocol` repository (`planner.py`, `executor.py`), together
with theorems settling the specification claims about them.

Modelling conventions:
* Python dicts are modelled as association lists (`List (key × value)`)
  in insertion order, the order Python dicts iterate in; key uniqueness
  is taken as a hypothesis where a theorem needs it.
* Python sets are modelled as duplicate-free lists; only membership and
  cardinality of sets are relevant to the claims proved here, so set
  iteration order (implementation-defined in Python) is determinised to
  first-insertion order.
* The text-directive store (`rst.py`), the Sphinx rebuild and git are
  external collaborators: they are passed in as a record of state
  transformers over an abstract store state `σ`.  Raised exceptions are
  modelled with `Except String`.  Per the spec, `git stash push` is
  modelled as recording the pre-batch store state and `git stash pop`
  as restoring it ("the rollback is assumed to restore pre-batch
  state"); `git stash drop` and `git commit` do not change store
  contents.
* `difflib.SequenceMatcher(None, a, b).ratio()` (Python stdlib, not
  repository code) is abstracted as a similarity function parameter
  `sim : String → String → ℚ`.
* Machine floats (similarity thresholds) are modelled as rationals.
-/

namespace AIMemory

/-- The `Action` dataclass of `planner.py`.  At Python runtime `kind` is a
plain string (the `Literal` annotation is not enforced), so it is a
`String` here; `actionKinds` below lists the declared literals.
`field_changes : dict[str, str]` is an association list in insertion
order. -/
structure Action where
  kind : String
  reason : String := ""
  id : String := ""
  add_tags : List String := []
  remove_tags : List String := []
  field_changes : List (String × String) := []
  old_id : String := ""
  new_type : String := ""
  new_title : String := ""
  new_body : String := ""
  new_tags : List String := []
  new_links : List String := []
  by_id : String := ""
  rst_path : String := ""
deriving DecidableEq, Repr

/-- The declared `ActionKind` literals of `planner.py`. -/
def actionKinds : List String :=
  ["RETAG", "SUPERSEDE", "DEPRECATE", "UPDATE", "PRUNE", "SPLIT_FILE"]

/-- A serialized action dict, as produced by `Action.to_dict` and consumed
by `actions_from_json`.  Both functions touch exactly the fourteen fixed
keys of the dataclass, so the dict is modelled as a record of `Option`
fields (`none` = key absent). -/
structure ActionDict where
  kind : Option String := none
  reason : Option String := none
  id : Option String := none
  add_tags : Option (List String) := none
  remove_tags : Option (List String) := none
  field_changes : Option (List (String × String)) := none
  old_id : Option String := none
  new_type : Option String := none
  new_title : Option String := none
  new_body : Option String := none
  new_tags : Option (List String) := none
  new_links : Option (List String) := none
  by_id : Option String := none
  rst_path : Option String := none
deriving DecidableEq, Repr

/-- Serialize a string field, omitting it when falsy (empty). -/
def serS (s : String) : Option String := if s = "" then none else some s

/-- Serialize a list field, omitting it when falsy (empty). -/
def serL (l : List String) : Option (List String) := if l = [] then none else some l

/-- Serialize a dict field, omitting it when falsy (empty). -/
def serD (d : List (String × String)) : Option (List (String × String)) :=
  if d = [] then none else some d

/-- `Action.to_dict` (planner.py): `asdict` followed by dropping falsy
values. -/
def Action.to_dict (a : Action) : ActionDict where
  kind := serS a.kind
  reason := serS a.reason
  id := serS a.id
  add_tags := serL a.add_tags
  remove_tags := serL a.remove_tags
  field_changes := serD a.field_changes
  old_id := serS a.old_id
  new_type := serS a.new_type
  new_title := serS a.new_title
  new_body := serS a.new_body
  new_tags := serL a.new_tags
  new_links := serL a.new_links
  by_id := serS a.by_id
  rst_path := serS a.rst_path

/-- One element of `actions_from_json` (executor.py): `d.get(key, default)`
for each dataclass field. -/
def actionFromDict (d : ActionDict) : Action where
  kind := d.kind.getD "UPDATE"
  reason := d.reason.getD ""
  id := d.id.getD ""
  add_tags := d.add_tags.getD []
  remove_tags := d.remove_tags.getD []
  field_changes := d.field_changes.getD []
  old_id := d.old_id.getD ""
  new_type := d.new_type.getD ""
  new_title := d.new_title.getD ""
  new_body := d.new_body.getD ""
  new_tags := d.new_tags.getD []
  new_links := d.new_links.getD []
  by_id := d.by_id.getD ""
  rst_path := d.rst_path.getD ""

/-- `actions_from_json` (executor.py). -/
def actions_from_json (ds : List ActionDict) : List Action := ds.map actionFromDict

/-!
## The entity snapshot ("needs" dict)

Entities are Python dicts read exclusively through `.get` with fixed
per-call-site defaults, so a record with those defaults at construction
is observationally equivalent (a missing `confidence` and `"medium"`
both rank 1; a missing `type`/`status` and `""` behave alike at every
read site).
-/

/-- One entity ("need") of the snapshot, with the fields the planner
reads. -/
structure Need where
  status : String := ""
  type : String := ""
  title : String := ""
  tags : List String := []
  confidence : String := "medium"
  created_at : String := ""
  expires_at : String := ""
  review_after : String := ""
  relates : List String := []
  supports : List String := []
  depends : List String := []
  contradicts : List String := []
  supersedes : List String := []
deriving DecidableEq, Repr

/-- The snapshot: a needs dict in insertion order. -/
abbrev Needs := List (String × Need)

/-- `_active_needs` (planner.py): filter to non-deprecated needs,
preserving order. -/
def activeNeeds (needs : Needs) : Needs :=
  needs.filter fun kv => kv.2.status ≠ "deprecated"

/-!
## detect_duplicates
-/

/-- Python `str.lower()` (ASCII case folding, structurally recursive so
that concrete snapshots evaluate). -/
def strLower (s : String) : String := String.mk (s.data.map Char.toLower)

/-- `conf_rank.get(confidence, 1)` of planner.py: low/medium/high map to
0/1/2, anything else to the dict-get default 1. -/
def confRank (c : String) : Nat :=
  if c = "high" then 2 else if c = "medium" then 1 else if c = "low" then 0 else 1

/-- The composite canonicality score `(confidence_rank, created_at)`. -/
def score (n : Need) : Nat × String := (confRank n.confidence, n.created_at)

/-- Python tuple `<` on `(int, str)` pairs: lexicographic. -/
def scoreLt (s t : Nat × String) : Prop := s.1 < t.1 ∨ (s.1 = t.1 ∧ s.2 < t.2)

instance (s t : Nat × String) : Decidable (scoreLt s t) := by
  unfold scoreLt; infer_instance

/-- `tuple(sorted((a, b)))` on two strings. -/
def sortPair (a b : String) : String × String := if a ≤ b then (a, b) else (b, a)

/-- `set(tags1) & set(tags2)` as a duplicate-free list. -/
def tagInter (t1 t2 : List String) : List String := t1.dedup.filter (· ∈ t2)

/-- `set(tags1) | set(tags2)` as a duplicate-free list. -/
def tagUnion (t1 t2 : List String) : List String := (t1 ++ t2).dedup

/-- The threshold test of the inner loop of `detect_duplicates`:
title-similarity, non-empty tag union, and Jaccard overlap, in source
order. -/
def dupPass (sim : String → String → ℚ) (tt tov : ℚ) (n1 n2 : Need) : Bool :=
  if ¬ (tt ≤ sim (strLower n1.title) (strLower n2.title)) then false
  else
    let u := tagUnion n1.tags n2.tags
    if u = [] then false
    else decide (tov ≤ (tagInter n1.tags n2.tags).length / (u.length : ℚ))

/-- The SUPERSEDE action `detect_duplicates` emits for a passing pair;
`old_id`/`by_id` are chosen by the score comparison (`score2 > score1`
keeps `id2`, otherwise `id1` — ties keep the earlier entity).  The
reason string interpolates percentages of Python floats; its exact text
is irrelevant to every claim and is rendered via `pctStr`. -/
def pctStr (x : ℚ) : String := toString ⌊100 * x + 1/2⌋ ++ "%"

def dupAction (sim : String → String → ℚ) (id1 : String) (n1 : Need)
    (id2 : String) (n2 : Need) : Action :=
  let titleSim := sim (strLower n1.title) (strLower n2.title)
  let u := tagUnion n1.tags n2.tags
  let overlap : ℚ := (tagInter n1.tags n2.tags).length / (u.length : ℚ)
  let (oldId, newId) :=
    if scoreLt (score n1) (score n2) then (id1, id2) else (id2, id1)
  { kind := "SUPERSEDE"
    reason := "Near-duplicate: title similarity " ++ pctStr titleSim ++
      ", tag overlap " ++ pctStr overlap ++ ". Keep " ++ newId ++
      " (higher score), deprecate " ++ oldId ++ "."
    old_id := oldId
    by_id := newId }

/-- The body of the double loop for one ordered pair: `none` when a
threshold check `continue`s, `some action` otherwise. -/
def dupEmit (sim : String → String → ℚ) (tt tov : ℚ)
    (p : (String × Need) × String × Need) : Option Action :=
  if dupPass sim tt tov p.1.2 p.2.2 then
    some (dupAction sim p.1.1 p.1.2 p.2.1 p.2.2)
  else none

/-- All ordered pairs `(items[i], items[j])` with `i < j`, in the order
the nested `for` loops of the source visit them. -/
def dupPairs {α : Type _} : List α → List (α × α)
  | [] => []
  | x :: xs => (xs.map fun y => (x, y)) ++ dupPairs xs

/-- The pair loop of `detect_duplicates` with its `seen_pairs` set: a
pair already in `seen` is skipped; a pair passing the thresholds is
added to `seen` and its action emitted. -/
def detectDuplicatesAux (sim : String → String → ℚ) (tt tov : ℚ) :
    List ((String × Need) × String × Need) → List (String × String) → List Action
  | [], _ => []
  | p :: ps, seen =>
    let pair := sortPair p.1.1 p.2.1
    if pair ∈ seen then detectDuplicatesAux sim tt tov ps seen
    else
      match dupEmit sim tt tov p with
      | some a => a :: detectDuplicatesAux sim tt tov ps (pair :: seen)
      | none => detectDuplicatesAux sim tt tov ps seen

/-- `detect_duplicates` (planner.py), with the stdlib similarity ratio
abstracted as `sim`. -/
def detect_duplicates (sim : String → String → ℚ) (needs : Needs)
    (title_threshold tag_overlap_threshold : ℚ) : List Action :=
  detectDuplicatesAux sim title_threshold tag_overlap_threshold
    (dupPairs (activeNeeds needs)) []

/-!
## detect_missing_tags and detect_stale
-/

/-- `detect_missing_tags` (planner.py). -/
def detect_missing_tags (needs : Needs) : List Action :=
  (activeNeeds needs).filterMap fun kv =>
    let hasTopic := kv.2.tags.any (·.startsWith "topic:")
    let hasRepo := kv.2.tags.any (·.startsWith "repo:")
    let missing := (if hasTopic then [] else ["topic:"]) ++
      (if hasRepo then [] else ["repo:"])
    if missing = [] then none
    else some { kind := "RETAG"
                reason := "Missing required tag prefix(es): " ++
                  String.intercalate ", " missing
                id := kv.1 }

/-- `detect_stale` (planner.py); `today` abstracts
`date.today().isoformat()`.  ISO dates compare correctly as strings in
both Python and Lean (code-point lexicographic order). -/
def detect_stale (today : String) (needs : Needs) : List Action :=
  (activeNeeds needs).filterMap fun kv =>
    if kv.2.expires_at ≠ "" ∧ kv.2.expires_at ≤ today then
      some { kind := "UPDATE"
             reason := "Expired on " ++ kv.2.expires_at ++ " — needs review or deprecation."
             id := kv.1
             field_changes := [("status", "review")] }
    else if kv.2.review_after ≠ "" ∧ kv.2.review_after ≤ today then
      some { kind := "UPDATE"
             reason := "Review overdue since " ++ kv.2.review_after ++ "."
             id := kv.1
             field_changes := [("status", "review")] }
    else none

/-!
## detect_conflicts
-/

/-- `defaultdict(list)` append `m[k].append(v)`: first-insertion key
order, values appended in order. -/
def dictAppend (m : List (String × List String)) (k v : String) :
    List (String × List String) :=
  if m.any (·.1 = k) then
    m.map fun kv => if kv.1 = k then (kv.1, kv.2 ++ [v]) else kv
  else m ++ [(k, [v])]

/-- The `by_topic` grouping of `detect_conflicts`: active needs of type
`dec` or `pref`, grouped under each of their `topic:` tags. -/
def byTopic (active : Needs) : List (String × List String) :=
  active.foldl
    (fun m kv =>
      if kv.2.type = "dec" ∨ kv.2.type = "pref" then
        kv.2.tags.foldl
          (fun m2 t => if t.startsWith "topic:" then dictAppend m2 t kv.1 else m2) m
      else m)
    []

/-- `active[id]` lookup (the id always comes from `active`, so the
default is unreachable). -/
def lookupNeed (active : Needs) (nid : String) : Need :=
  ((active.find? (·.1 = nid)).map (·.2)).getD {}

/-- The union of a need's five link-kind lists, as used for the
already-related check (set membership only). -/
def allLinks (n : Need) : List String :=
  n.relates ++ n.supports ++ n.depends ++ n.contradicts ++ n.supersedes

/-- The UPDATE action `detect_conflicts` emits for an unlinked pair.
Both needs come from topic groups, so their `type` is `dec` or `pref`
(nonempty), matching Python's rendering of `need.get('type')`. -/
def conflictAction (id1 id2 : String) (n1 n2 : Need) : Action :=
  { kind := "UPDATE"
    reason := "Potential conflict: " ++ id1 ++ " and " ++ id2 ++
      " are both active " ++ n1.type ++ "/" ++ n2.type ++
      " entries on the same topic with no explicit relationship link."
    id := id1
    field_changes := [] }

/-- The inner pair loop of `detect_conflicts` over one topic group: the
pair is recorded in `seen` before the link check, and the action is
emitted only when neither direction is already linked. -/
def conflictPairs (active : Needs) :
    List (String × String) → List (String × String) →
      List Action × List (String × String)
  | [], seen => ([], seen)
  | (id1, id2) :: ps, seen =>
    let pair := sortPair id1 id2
    if pair ∈ seen then conflictPairs active ps seen
    else
      let n1 := lookupNeed active id1
      let n2 := lookupNeed active id2
      let rest := conflictPairs active ps (pair :: seen)
      if id2 ∉ allLinks n1 ∧ id1 ∉ allLinks n2 then
        (conflictAction id1 id2 n1 n2 :: rest.1, rest.2)
      else rest

/-- The outer topic loop of `detect_conflicts`, threading `seen` across
groups (a pair shared by two topics is emitted at most once). -/
def conflictsAux (active : Needs) :
    List (String × List String) → List (String × String) → List Action
  | [], _ => []
  | (_, ids) :: groups, seen =>
    if ids.length < 2 then conflictsAux active groups seen
    else
      let r := conflictPairs active (dupPairs ids) seen
      r.1 ++ conflictsAux active groups r.2

/-- `detect_conflicts` (planner.py). -/
def detect_conflicts (needs : Needs) : List Action :=
  let active := activeNeeds needs
  conflictsAux active (byTopic active) []

/-!
## detect_tag_normalization
-/

/-- `defaultdict(int)` bump `m[t] += 1`: first-insertion key order. -/
def bumpCount (m : List (String × Nat)) (t : String) : List (String × Nat) :=
  if m.any (·.1 = t) then
    m.map fun kv => if kv.1 = t then (kv.1, kv.2 + 1) else kv
  else m ++ [(t, 1)]

/-- `tag_usage`: usage count of every exact tag form across the active
needs. -/
def tagUsage (active : Needs) : List (String × Nat) :=
  active.foldl (fun m kv => kv.2.tags.foldl bumpCount m) []

/-- `tag_usage[t]` (every key looked up is present). -/
def usageOf (usage : List (String × Nat)) (t : String) : Nat :=
  ((usage.find? (·.1 = t)).map (·.2)).getD 0

/-- `lower_groups[low].add(t)`: sets as duplicate-free lists in
first-insertion order (Python set iteration order is
implementation-defined; every fact proved about the groups is
order-independent). -/
def addForm (g : List (String × List String)) (low t : String) :
    List (String × List String) :=
  if g.any (·.1 = low) then
    g.map fun kv =>
      if kv.1 = low then (kv.1, if t ∈ kv.2 then kv.2 else kv.2 ++ [t]) else kv
  else g ++ [(low, [t])]

/-- `lower_groups`: the exact tag forms grouped by lower-cased form, in
the key order of `tag_usage`. -/
def lowerGroups (usage : List (String × Nat)) : List (String × List String) :=
  (usage.map (·.1)).foldl (fun g t => addForm g (strLower t) t) []

/-- `max(forms, key=lambda t: tag_usage[t])`: the first form (in
iteration order) with maximal usage count — a later form replaces the
current best only when strictly more used. -/
def maxByUsage (usage : List (String × Nat)) : List String → String
  | [] => ""
  | f :: fs => fs.foldl (fun best t => if usageOf usage best < usageOf usage t then t else best) f

/-- The RETAG action `detect_tag_normalization` emits. -/
def normAction (form canonical nid : String) : Action :=
  { kind := "RETAG"
    reason := "Tag normalization: '" ++ form ++ "' → '" ++ canonical ++ "'"
    id := nid
    remove_tags := [form]
    add_tags := [canonical] }

/-- `detect_tag_normalization` (planner.py). -/
def detect_tag_normalization (needs : Needs) : List Action :=
  let active := activeNeeds needs
  let usage := tagUsage active
  (lowerGroups usage).flatMap fun g =>
    if g.2.length ≤ 1 then []
    else
      let canonical := maxByUsage usage g.2
      (g.2.filter (· ≠ canonical)).flatMap fun form =>
        active.filterMap fun kv =>
          if form ∈ kv.2.tags then some (normAction form canonical kv.1) else none

/-!
## validate_actions (executor.py)
-/

/-- Python dict assignment `m[k] = v`: overwrite in place, or append a
new key. -/
def dictInsert (m : List (String × String)) (k v : String) :
    List (String × String) :=
  if m.any (·.1 = k) then m.map fun kv => if kv.1 = k then (k, v) else kv
  else m ++ [(k, v)]

/-- `m.get(k)` as an option (first matching key). -/
def dictGet? (m : List (String × String)) (k : String) : Option String :=
  (m.find? (·.1 = k)).map (·.2)

/-- The `supersede_map` of `validate_actions`: `old_id → by_id` over the
SUPERSEDE actions of the batch with both ids populated (a later action
for the same `old_id` overwrites an earlier one, as dict assignment
does). -/
def supersedeMap (actions : List Action) : List (String × String) :=
  actions.foldl
    (fun m a =>
      if a.kind = "SUPERSEDE" ∧ a.old_id ≠ "" ∧ a.by_id ≠ "" then
        dictInsert m a.old_id a.by_id
      else m)
    []

def length_filter_not_mem_le (l : List String) (c : String) (visited : List String) :
    (l.filter (fun x => x ∉ c :: visited)).length ≤
      (l.filter (fun x => x ∉ visited)).length := by
  induction l with
  | nil => simp
  | cons x xs ih =>
    by_cases h1 : x ∈ visited
    · have d1 : (decide (x ∉ visited)) = false := by simp [h1]
      have d2 : (decide (x ∉ c :: visited)) = false := by
        simp [List.mem_cons, h1]
      simp only [List.filter_cons, d1, d2, if_neg, Bool.false_eq_true,
        not_false_eq_true]
      exact ih
    · have d1 : (decide (x ∉ visited)) = true := by simp [h1]
      by_cases h2 : x ∈ c :: visited
      · have d2 : (decide (x ∉ c :: visited)) = false := by simp [h2]
        simp only [List.filter_cons, d1, d2, if_neg, if_pos,
          Bool.false_eq_true, not_false_eq_true, List.length_cons]
        omega
      · have d2 : (decide (x ∉ c :: visited)) = true := by simp [h2]
        simp only [List.filter_cons, d1, d2, if_pos, List.length_cons]
        omega

def length_filter_not_mem_lt (l : List String) (c : String) (visited : List String)
    (hc : c ∈ l) (hv : c ∉ visited) :
    (l.filter (fun x => x ∉ c :: visited)).length <
      (l.filter (fun x => x ∉ visited)).length := by
  induction l with
  | nil => cases hc
  | cons x xs ih =>
    by_cases hxc : x = c
    · have d2 : (decide (x ∉ c :: visited)) = false := by simp [hxc]
      have d1 : (decide (x ∉ visited)) = true := by simp [hxc, hv]
      have hle := length_filter_not_mem_le xs c visited
      simp only [List.filter_cons, d1, d2, if_pos, if_neg,
        Bool.false_eq_true, not_false_eq_true, List.length_cons]
      omega
    · have hx : c ∈ xs := by
        rcases List.mem_cons.mp hc with h | h
        · exact absurd h.symm hxc
        · exact h
      have hlt := ih hx
      by_cases h1 : x ∈ visited
      · have d1 : (decide (x ∉ visited)) = false := by simp [h1]
        have d2 : (decide (x ∉ c :: visited)) = false := by
          simp [List.mem_cons, h1]
        simp only [List.filter_cons, d1, d2, if_neg, Bool.false_eq_true,
          not_false_eq_true]
        exact hlt
      · have d1 : (decide (x ∉ visited)) = true := by simp [h1]
        have d2 : (decide (x ∉ c :: visited)) = true := by
          simp [List.mem_cons, hxc, h1]
        simp only [List.filter_cons, d1, d2, if_pos, List.length_cons]
        omega

/-- The keys not yet visited, the decreasing measure of the chain walk. -/
def unvisited (m : List (String × String)) (visited : List String) : Nat :=
  ((m.map (·.1)).filter (fun x => x ∉ visited)).length

def mem_keys_of_dictGet? {m : List (String × String)} {k v : String}
    (h : dictGet? m k = some v) : k ∈ m.map (·.1) := by
  unfold dictGet? at h
  cases hf : m.find? (·.1 = k) with
  | none => rw [hf] at h; cases h
  | some kv =>
    have heq : kv.1 = k := by
      have := List.find?_some hf
      simpa using this
    exact heq ▸ List.mem_map.mpr ⟨kv, List.mem_of_find?_eq_some hf, rfl⟩

def unvisited_decreases (m : List (String × String)) (visited : List String)
    (current : String) (hk : current ∈ m.map (·.1)) (hv : current ∉ visited) :
    unvisited m (current :: visited) < unvisited m visited := by
  unfold unvisited
  exact length_filter_not_mem_lt (m.map (·.1)) current visited hk hv

/-- The cycle walk of `validate_actions`: follow the supersede map from
`current`, reporting `true` when a node repeats before the chain
terminates.  In the source this is a `while current in supersede_map`
loop; it terminates because every iteration adds a fresh map key to
`visited`, which is the decreasing measure here. -/
def walkCycle (m : List (String × String)) (visited : List String)
    (current : String) : Bool :=
  match h : dictGet? m current with
  | none => false
  | some next =>
    if current ∈ visited then true
    else walkCycle m (current :: visited) next
termination_by unvisited m visited
decreasing_by
  exact unvisited_decreases m visited current (mem_keys_of_dictGet? h) (by assumption)

/-- The per-action classification of `validate_actions`: `some reason`
when the action is skipped, `none` when it proceeds.  Checks run in
source order: required fields per kind, then the supersede cycle
walk. -/
def validateReason (smap : List (String × String)) (a : Action) : Option String :=
  if a.kind = "RETAG" ∧ a.id = "" then some "RETAG requires 'id'"
  else if a.kind = "SUPERSEDE" ∧ a.old_id = "" then some "SUPERSEDE requires 'old_id'"
  else if a.kind = "DEPRECATE" ∧ a.id = "" then some "DEPRECATE requires 'id'"
  else if a.kind = "UPDATE" ∧ a.id = "" then some "UPDATE requires 'id'"
  else if a.kind = "SPLIT_FILE" ∧ a.rst_path = "" then some "SPLIT_FILE requires 'rst_path'"
  else if a.kind = "SUPERSEDE" ∧ a.old_id ≠ "" ∧ walkCycle smap [] a.old_id then
    some ("Circular supersede chain involving " ++ a.old_id)
  else none

/-- The loop of `validate_actions`, partitioning into valid actions and
skipped `(action_dict, reason)` entries, both in input order. -/
def validateAux (smap : List (String × String)) :
    List Action → List Action × List (ActionDict × String)
  | [] => ([], [])
  | a :: rest =>
    let r := validateAux smap rest
    match validateReason smap a with
    | some reason => (r.1, (a.to_dict, reason) :: r.2)
    | none => (a :: r.1, r.2)

/-- `validate_actions` (executor.py). -/
def validate_actions (actions : List Action) :
    List Action × List (ActionDict × String) :=
  validateAux (supersedeMap actions) actions

/-!
## The executor (executor.py)

The store, git and the Sphinx rebuild are external collaborators; they
are modelled as a record of state transformers over an abstract store
state `σ`.  The store primitives mirror the `rst.py` call signatures
used by the executor; each returns either `.ok (success_flag, message)`
(the `(bool, str)` contract — "not found" is `ok = false`, not an
exception) or `.error msg` for a raised exception, together with the
possibly-mutated store state.
-/

structure StorePrims (σ : Type _) where
  /-- `remove_tags_in_rst workspace id tags`. -/
  removeTags : σ → String → List String → Except String (Bool × String) × σ
  /-- `add_tags_in_rst workspace id tags`. -/
  addTags : σ → String → List String → Except String (Bool × String) × σ
  /-- `deprecate_in_rst workspace id superseded_by`. -/
  deprecate : σ → String → Option String → Except String (Bool × String) × σ
  /-- `update_field_in_rst workspace id field value`. -/
  updateField : σ → String → String → String → Except String (Bool × String) × σ
  /-- `append_to_rst workspace mem_type directive`, returning the target
  file name used in the success message. -/
  appendEntry : σ → String → String → Except String String × σ
  /-- `generate_rst_directive mem_type title tags body supersedes` (pure). -/
  genDirective : String → String → List String → String → List String → String
  /-- `run_rebuild workspace` — `(ok, output)`, never raises. -/
  runRebuild : σ → Bool × String
  /-- Whether `_git_stash_push` actually creates a stash (false when git
  fails or reports "No local changes to save"). -/
  stashCreated : σ → Bool

/-- `"; ".join(messages)`. -/
def joinSemi (msgs : List String) : String := String.intercalate "; " msgs

/-- `_execute_retag`: remove `remove_tags` then add `add_tags`; overall
success is the conjunction; messages are joined. -/
def execRetag {σ : Type _} (p : StorePrims σ) (s : σ) (a : Action) :
    Except String (Bool × String) × σ :=
  if a.remove_tags ≠ [] then
    match p.removeTags s a.id a.remove_tags with
    | (.error e, s1) => (.error e, s1)
    | (.ok (ok1, m1), s1) =>
      if a.add_tags ≠ [] then
        match p.addTags s1 a.id a.add_tags with
        | (.error e, s2) => (.error e, s2)
        | (.ok (ok2, m2), s2) => (.ok (ok1 && ok2, joinSemi [m1, m2]), s2)
      else (.ok (ok1, joinSemi [m1]), s1)
  else if a.add_tags ≠ [] then
    match p.addTags s a.id a.add_tags with
    | (.error e, s1) => (.error e, s1)
    | (.ok (ok2, m2), s1) => (.ok (ok2, joinSemi [m2]), s1)
  else (.ok (true, joinSemi []), s)

/-- `_execute_supersede`: deprecate `old_id` citing `by_id`; on success,
optionally append a replacement entity. -/
def execSupersede {σ : Type _} (p : StorePrims σ) (s : σ) (a : Action) :
    Except String (Bool × String) × σ :=
  match p.deprecate s a.old_id (some a.by_id) with
  | (.error e, s1) => (.error e, s1)
  | (.ok (ok, msg), s1) =>
    if !ok then (.ok (false, "Failed to deprecate " ++ a.old_id ++ ": " ++ msg), s1)
    else if a.new_type ≠ "" ∧ a.new_title ≠ "" then
      match p.appendEntry s1 a.new_type
          (p.genDirective a.new_type a.new_title a.new_tags a.new_body [a.old_id]) with
      | (.error e, s2) => (.error e, s2)
      | (.ok name, s2) =>
        (.ok (true, joinSemi [msg, "Created replacement in " ++ name]), s2)
    else (.ok (true, joinSemi [msg]), s1)

/-- `_execute_deprecate`: `by_id or None`. -/
def execDeprecate {σ : Type _} (p : StorePrims σ) (s : σ) (a : Action) :
    Except String (Bool × String) × σ :=
  p.deprecate s a.id (if a.by_id = "" then none else some a.by_id)

/-- The `field_changes` loop of `_execute_update`. -/
def execUpdateGo {σ : Type _} (p : StorePrims σ) (nid : String) :
    List (String × String) → σ → Bool → List String →
      Except String (Bool × String) × σ
  | [], s, allOk, msgs => (.ok (allOk, joinSemi msgs), s)
  | (f, v) :: rest, s, allOk, msgs =>
    match p.updateField s nid f v with
    | (.error e, s1) => (.error e, s1)
    | (.ok (ok, m), s1) => execUpdateGo p nid rest s1 (allOk && ok) (msgs ++ [m])

/-- `_execute_update`: short-circuits with "No field changes" when
`field_changes` is empty, otherwise applies each change independently. -/
def execUpdate {σ : Type _} (p : StorePrims σ) (s : σ) (a : Action) :
    Except String (Bool × String) × σ :=
  if a.field_changes = [] then
    (.ok (true, "No field changes for " ++ a.id), s)
  else execUpdateGo p a.id a.field_changes s true []

/-- `_execute_prune`: deprecate with no supersede reference. -/
def execPrune {σ : Type _} (p : StorePrims σ) (s : σ) (a : Action) :
    Except String (Bool × String) × σ :=
  p.deprecate s a.id none

/-- `_execute_split_file`: informational no-op. -/
def execSplitFile {σ : Type _} (_p : StorePrims σ) (s : σ) (a : Action) :
    Except String (Bool × String) × σ :=
  (.ok (true, "File splitting noted for " ++ a.rst_path ++
    " — handled automatically on next append."), s)

/-- The `_EXECUTORS` dispatch table: `none` for an unknown kind. -/
def dispatchAction {σ : Type _} (p : StorePrims σ) (s : σ) (a : Action) :
    Option (Except String (Bool × String) × σ) :=
  if a.kind = "RETAG" then some (execRetag p s a)
  else if a.kind = "SUPERSEDE" then some (execSupersede p s a)
  else if a.kind = "DEPRECATE" then some (execDeprecate p s a)
  else if a.kind = "UPDATE" then some (execUpdate p s a)
  else if a.kind = "PRUNE" then some (execPrune p s a)
  else if a.kind = "SPLIT_FILE" then some (execSplitFile p s a)
  else none

/-- An entry of the `applied` list: `{"action": ..., "message": ...}`. -/
structure AppliedEntry where
  action : ActionDict
  message : String
deriving DecidableEq, Repr

/-- An entry of the `failed` list: always an `error`, plus the success
message when the action ran but reported failure. -/
structure FailedEntry where
  action : ActionDict
  message : Option String
  error : String
deriving DecidableEq, Repr

/-- `ExecutionResult` (executor.py). -/
structure ExecutionResult where
  success : Bool
  applied : List AppliedEntry := []
  failed : List FailedEntry := []
  skipped : List (ActionDict × String) := []
  build_output : String := ""
  message : String := ""
deriving DecidableEq, Repr

/-- The sequential application loop of `execute_plan`: per-action
dispatch, with exceptions converted to failure entries and the store
state threaded through (a failing action may still have mutated the
store). -/
def applyActions {σ : Type _} (p : StorePrims σ) :
    List Action → σ → List AppliedEntry × List FailedEntry × σ
  | [], s => ([], [], s)
  | a :: rest, s =>
    match dispatchAction p s a with
    | none =>
      let r := applyActions p rest s
      (r.1, ⟨a.to_dict, none, "Unknown action kind: " ++ a.kind⟩ :: r.2.1, r.2.2)
    | some (.error e, s1) =>
      let r := applyActions p rest s1
      (r.1, ⟨a.to_dict, none, e⟩ :: r.2.1, r.2.2)
    | some (.ok (ok, msg), s1) =>
      let r := applyActions p rest s1
      if ok then (⟨a.to_dict, msg⟩ :: r.1, r.2.1, r.2.2)
      else (r.1, ⟨a.to_dict, some msg, msg⟩ :: r.2.1, r.2.2)

/-- `execute_plan` (executor.py), returning the result together with the
final store state.  Git stash is modelled per the spec: push records the
pre-batch state `s0`, pop restores it, drop and auto-commit leave store
contents unchanged. -/
def execute_plan {σ : Type _} (p : StorePrims σ) (actions : List Action)
    (_auto_commit : Bool) (rebuild : Bool) (s0 : σ) : ExecutionResult × σ :=
  let v := validate_actions actions
  if v.1 = [] then
    ({ success := true, skipped := v.2, message := "No valid actions to execute." }, s0)
  else
    let stashed := p.stashCreated s0
    let r := applyActions p v.1 s0
    let build := if rebuild && !r.1.isEmpty then p.runRebuild r.2.2 else (true, "")
    if !build.1 then
      if stashed then
        ({ success := false, applied := [], failed := r.2.1, skipped := v.2,
           build_output := build.2,
           message := "Build failed after applying actions — rolled back via git stash pop." },
         s0)
      else
        ({ success := false, applied := r.1, failed := r.2.1, skipped := v.2,
           build_output := build.2,
           message := "Build failed after applying actions — no git stash available for rollback; workspace may be in an inconsistent state." },
         r.2.2)
    else
      ({ success := r.2.1.isEmpty, applied := r.1, failed := r.2.1, skipped := v.2,
         build_output := build.2,
         message := "Plan executed: " ++ toString r.1.length ++ " applied, " ++
           toString r.2.1.length ++ " failed, " ++ toString v.2.length ++ " skipped." },
       r.2.2)

/-!
## Concrete fixtures used by witnesses and counterexamples

A store state of type `Nat` counting mutations; primitives that always
succeed, and variants whose rebuild fails, with and without a created
stash.
-/

def okPrims : StorePrims Nat where
  removeTags := fun s _ _ => (.ok (true, "removed"), s + 1)
  addTags := fun s _ _ => (.ok (true, "added"), s + 1)
  deprecate := fun s _ _ => (.ok (true, "deprecated"), s + 1)
  updateField := fun s _ _ _ => (.ok (true, "updated"), s + 1)
  appendEntry := fun s _ _ => (.ok "decisions.rst", s + 1)
  genDirective := fun _ _ _ _ _ => "directive"
  runRebuild := fun _ => (true, "build succeeded")
  stashCreated := fun _ => false

def failBuildPrims : StorePrims Nat :=
  { okPrims with runRebuild := fun _ => (false, "Sphinx build failed") }

def stashFailBuildPrims : StorePrims Nat :=
  { failBuildPrims with stashCreated := fun _ => true }

/-- A well-formed RETAG action. -/
def goodRetag : Action := { kind := "RETAG", reason := "add tier", id := "MEM_alpha",
                            add_tags := ["tier:core"] }

/-- A RETAG action missing its required `id`. -/
def badRetag : Action := { kind := "RETAG", reason := "broken" }

/-- SUPERSEDE A→B. -/
def supAB : Action := { kind := "SUPERSEDE", reason := "dup", old_id := "A", by_id := "B" }

/-- SUPERSEDE B→A. -/
def supBA : Action := { kind := "SUPERSEDE", reason := "dup", old_id := "B", by_id := "A" }

/-- Example entities for the duplicate-detection claims: a medium-
confidence entity created 2026-01-10 and a high-confidence one created
2026-01-15 with the same title and tags. -/
def needMedium : Need := { title := "Gateway timeout is 30 seconds",
                           tags := ["topic:gateway", "repo:x"],
                           confidence := "medium", created_at := "2026-01-10" }

def needHigh : Need := { title := "Gateway timeout is 30 seconds",
                         tags := ["topic:gateway", "repo:x"],
                         confidence := "high", created_at := "2026-01-15" }

def dupExampleNeeds : Needs := [("MEM_med", needMedium), ("MEM_high", needHigh)]

/-- Example snapshot for tag normalization: `topic:Gateway` used once,
`topic:gateway` twice, across three entities. -/
def tagNormNeeds : Needs :=
  [("MEM_1", { tags := ["topic:Gateway"] }),
   ("MEM_2", { tags := ["topic:gateway"] }),
   ("MEM_3", { tags := ["topic:gateway"] })]

/-- The `seen_pairs` key of an ordered entity pair. -/
def pairKey (p : (String × Need) × String × Need) : String × String :=
  sortPair p.1.1 p.2.1

/-- The unordered id pair of an emitted SUPERSEDE action. -/
def actionPairKey (a : Action) : String × String := sortPair a.old_id a.by_id

/-- A deprecated twin of the duplicate-example entities, for the
deprecated-exclusion witness. -/
def deadNeed : Need := { status := "deprecated", title := "Gateway timeout is 30 seconds",
                         tags := ["topic:gateway", "repo:x"] }

def c7Needs : Needs := [("dead", deadNeed), ("live", {})]

/-- The constant similarity 1, consistent with `ratio` on equal strings. -/
def simOne : String → String → ℚ := fun _ _ => 1

/-!
# Theorems

## Serialization round trip (claims C3, C10)
-/

theorem serS_getD (s : String) : (serS s).getD "" = s := by
  unfold serS; split <;> simp_all

theorem serL_getD (l : List String) : (serL l).getD [] = l := by
  unfold serL; split <;> simp_all

theorem serD_getD (d : List (String × String)) : (serD d).getD [] = d := by
  unfold serD; split <;> simp_all

theorem serS_getD_of_ne (s dflt : String) (h : s ≠ "") : (serS s).getD dflt = s := by
  unfold serS; split <;> simp_all

/-- C3: for every Action (with `kind` one of the declared ActionKind
literals), serializing with `to_dict` — which omits empty/falsy
fields — and deserializing with `actions_from_json` yields an Action
equal to the original on every field: populated fields survive with
equal values and omitted empty fields are restored to their empty
defaults. -/
theorem action_roundtrip (a : Action) (h : a.kind ∈ actionKinds) :
    actions_from_json [a.to_dict] = [a] := by
  have hk : a.kind ≠ "" := fun he => by rw [he] at h; revert h; decide
  have : actionFromDict a.to_dict = a := by
    cases a
    simp only [actionFromDict, Action.to_dict] at hk ⊢
    simp [serS_getD, serL_getD, serD_getD, serS_getD_of_ne _ _ hk]
  simp [actions_from_json, this]

/-- Witness for C3 at a concrete RETAG action. -/
theorem action_roundtrip_witness :
    actions_from_json
        [(Action.to_dict
          { kind := "RETAG", reason := "why", id := "MEM_1", add_tags := ["topic:a"] })] =
      [{ kind := "RETAG", reason := "why", id := "MEM_1", add_tags := ["topic:a"] }] :=
  action_roundtrip _ (by decide)

/-- C10: `actions_from_json` is total on arbitrary partial action dicts:
it yields one Action per dict, a dict with no `kind` key yields
`kind = "UPDATE"`, and every other absent field defaults to its empty
value. -/
theorem actions_from_json_defaults :
    (∀ ds : List ActionDict, (actions_from_json ds).length = ds.length) ∧
    (∀ d : ActionDict, d.kind = none → (actionFromDict d).kind = "UPDATE") ∧
    (∀ d : ActionDict, d.reason = none → (actionFromDict d).reason = "") ∧
    (∀ d : ActionDict, d.id = none → (actionFromDict d).id = "") ∧
    (∀ d : ActionDict, d.add_tags = none → (actionFromDict d).add_tags = []) ∧
    (∀ d : ActionDict, d.remove_tags = none → (actionFromDict d).remove_tags = []) ∧
    (∀ d : ActionDict, d.field_changes = none → (actionFromDict d).field_changes = []) ∧
    (∀ d : ActionDict, d.old_id = none → (actionFromDict d).old_id = "") ∧
    (∀ d : ActionDict, d.new_type = none → (actionFromDict d).new_type = "") ∧
    (∀ d : ActionDict, d.new_title = none → (actionFromDict d).new_title = "") ∧
    (∀ d : ActionDict, d.new_body = none → (actionFromDict d).new_body = "") ∧
    (∀ d : ActionDict, d.new_tags = none → (actionFromDict d).new_tags = []) ∧
    (∀ d : ActionDict, d.new_links = none → (actionFromDict d).new_links = []) ∧
    (∀ d : ActionDict, d.by_id = none → (actionFromDict d).by_id = "") ∧
    (∀ d : ActionDict, d.rst_path = none → (actionFromDict d).rst_path = "") := by
  refine ⟨fun ds => ?_, ?_, ?_, ?_, ?_, ?_, ?_, ?_, ?_, ?_, ?_, ?_, ?_, ?_, ?_⟩
  · simp [actions_from_json]
  all_goals intro d hd
  all_goals simp [actionFromDict, hd]

/-- Witness for C10: a dict carrying only an `id` key deserializes with
the UPDATE default kind. -/
theorem actions_from_json_defaults_witness :
    (actionFromDict { id := some "MEM_9" }).kind = "UPDATE" :=
  actions_from_json_defaults.2.1 { id := some "MEM_9" } rfl

/-!
## Executor claims (C1, C2, C9)
-/

/-- C1: if the rebuild step fails after applying actions, `execute_plan`
returns `success = false`; when a git stash was created it pops the
stash (the store returns to its pre-batch state) and reports an empty
`applied` list, and when no stash was created it surfaces `applied`
as-is with a message warning that the workspace may be inconsistent. -/
theorem execute_plan_rollback {σ : Type _} (p : StorePrims σ) (actions : List Action)
    (ac : Bool) (s0 : σ) (va : List Action) (sk : List (ActionDict × String))
    (ap : List AppliedEntry) (fl : List FailedEntry) (s1 : σ) (out : String)
    (hv : validate_actions actions = (va, sk)) (hva : va ≠ [])
    (happ : applyActions p va s0 = (ap, fl, s1)) (hap : ap ≠ [])
    (hrb : p.runRebuild s1 = (false, out)) :
    (p.stashCreated s0 = true →
      execute_plan p actions ac true s0 =
        ({ success := false, applied := [], failed := fl, skipped := sk,
           build_output := out,
           message := "Build failed after applying actions — rolled back via git stash pop." },
         s0)) ∧
    (p.stashCreated s0 = false →
      execute_plan p actions ac true s0 =
        ({ success := false, applied := ap, failed := fl, skipped := sk,
           build_output := out,
           message := "Build failed after applying actions — no git stash available for rollback; workspace may be in an inconsistent state." },
         s1)) := by
  have hapE : ap.isEmpty = false := by
    cases ap with
    | nil => exact absurd rfl hap
    | cons x xs => rfl
  constructor <;> intro hst <;>
    simp [execute_plan, hv, hva, happ, hapE, hrb, hst]

/-- Witness for C1 at a concrete one-action plan whose rebuild fails,
with a stash created: the result is a rollback to the initial store
state with an empty applied list. -/
theorem execute_plan_rollback_witness :
    execute_plan stashFailBuildPrims [goodRetag] false true 0 =
      ({ success := false, applied := [], failed := [], skipped := [],
         build_output := "Sphinx build failed",
         message := "Build failed after applying actions — rolled back via git stash pop." },
       0) :=
  (execute_plan_rollback stashFailBuildPrims [goodRetag] false 0 [goodRetag] []
    [⟨goodRetag.to_dict, "added"⟩] [] 1 "Sphinx build failed"
    (by decide) (by decide) (by decide) (by decide) (by decide)).1 (by decide)

/-- C2 counterexample: a call in which every action applies but the
rebuild fails returns `success = false` with `failed = []`, so
"success=true iff failed is empty" does not hold for every call. -/
theorem execute_plan_success_iff_counterexample :
    ¬ (((execute_plan failBuildPrims [goodRetag] false true 0).1.success = true) ↔
        (execute_plan failBuildPrims [goodRetag] false true 0).1.failed = []) := by
  decide

/-- C2 (amended): whenever the rebuild step does not fail (no valid
actions, rebuild skipped, nothing applied, or a successful rebuild),
`success = true` iff `failed` is empty; and the concrete batch of one
well-formed RETAG plus one RETAG missing `id` yields one applied entry,
one skipped entry, and overall success. -/
theorem execute_plan_success_iff {σ : Type _} (p : StorePrims σ) (actions : List Action)
    (ac rb : Bool) (s0 : σ) (va : List Action) (sk : List (ActionDict × String))
    (ap : List AppliedEntry) (fl : List FailedEntry) (s1 : σ)
    (hv : validate_actions actions = (va, sk))
    (happ : applyActions p va s0 = (ap, fl, s1))
    (hnb : va ≠ [] → (rb && !ap.isEmpty) = true → (p.runRebuild s1).1 = true) :
    ((execute_plan p actions ac rb s0).1.success = true ↔
      (execute_plan p actions ac rb s0).1.failed = []) ∧
    ((execute_plan okPrims [goodRetag, badRetag] false true 0).1.applied.length = 1 ∧
     (execute_plan okPrims [goodRetag, badRetag] false true 0).1.skipped.length = 1 ∧
     (execute_plan okPrims [goodRetag, badRetag] false true 0).1.success = true) := by
  refine ⟨?_, by decide, by decide, by decide⟩
  by_cases hva : va = []
  · simp [execute_plan, hv, hva]
  · by_cases hb : (rb && !ap.isEmpty) = true
    · have h1 := hnb hva hb
      rcases hb2 : p.runRebuild s1 with ⟨bo, bout⟩
      rw [hb2] at h1; simp at h1; subst h1
      simp [execute_plan, hv, hva, happ, hb, hb2, List.isEmpty_iff]
    · simp [execute_plan, hv, hva, happ, hb, List.isEmpty_iff]

/-- Witness for C2 (amended) at a concrete successful run. -/
theorem execute_plan_success_iff_witness :
    ((execute_plan okPrims [goodRetag] false true 0).1.success = true ↔
      (execute_plan okPrims [goodRetag] false true 0).1.failed = []) :=
  (execute_plan_success_iff okPrims [goodRetag] false true 0 [goodRetag] []
    [⟨goodRetag.to_dict, "added"⟩] [] 1 (by decide) (by decide)
    (fun _ _ => by decide)).1

/-!
## Validator claims (C4)
-/

/-- One step of the chain walk: an unvisited node with an outgoing edge
moves to its successor. -/
theorem walkCycle_step (m : List (String × String)) (visited : List String)
    (current next : String) (h : dictGet? m current = some next)
    (hv : current ∉ visited) :
    walkCycle m visited current = walkCycle m (current :: visited) next := by
  rw [walkCycle]
  split
  · next h0 => rw [h0] at h; cases h
  · next nxt h0 =>
    rw [h0] at h
    injection h with h1
    subst h1
    simp [hv]

/-- The walk reports a cycle on revisiting a node that still has an
outgoing edge. -/
theorem walkCycle_revisit (m : List (String × String)) (visited : List String)
    (current next : String) (h : dictGet? m current = some next)
    (hv : current ∈ visited) :
    walkCycle m visited current = true := by
  rw [walkCycle]
  split
  · next h0 => rw [h0] at h; cases h
  · next nxt h0 => simp [hv]

/-- The two-cycle map A→B→A is detected starting from A. -/
theorem walkCycleA : walkCycle [("A", "B"), ("B", "A")] [] "A" = true := by
  rw [walkCycle_step [("A", "B"), ("B", "A")] [] "A" "B" (by decide) (by simp)]
  rw [walkCycle_step [("A", "B"), ("B", "A")] ["A"] "B" "A" (by decide) (by simp)]
  exact walkCycle_revisit [("A", "B"), ("B", "A")] ["B", "A"] "A" "B" (by decide) (by simp)

/-- The two-cycle map A→B→A is detected starting from B. -/
theorem walkCycleB : walkCycle [("A", "B"), ("B", "A")] [] "B" = true := by
  rw [walkCycle_step [("A", "B"), ("B", "A")] [] "B" "A" (by decide) (by simp)]
  rw [walkCycle_step [("A", "B"), ("B", "A")] ["B"] "A" "B" (by decide) (by simp)]
  exact walkCycle_revisit [("A", "B"), ("B", "A")] ["A", "B"] "B" "A" (by decide) (by simp)

/-- Every action kept by the validator loop passes all its checks. -/
theorem mem_validateAux_none {smap : List (String × String)} {x : Action}
    {l : List Action} (h : x ∈ (validateAux smap l).1) :
    validateReason smap x = none := by
  induction l with
  | nil => simp [validateAux] at h
  | cons a rest ih =>
    simp only [validateAux] at h
    split at h
    · exact ih h
    · next heq =>
      rcases List.mem_cons.mp h with rfl | h2
      · exact heq
      · exact ih h2

/-- C4: `validate_actions` rejects every SUPERSEDE action whose chain
walk through the batch-wide `old_id → by_id` map revisits a node; in
particular, for the batch [SUPERSEDE(A→B), SUPERSEDE(B→A), RETAG], both
cycle members are rejected with a circular-chain reason, the valid list
contains only the RETAG action (no supersede cycle), and the action
outside the cycle still passes. -/
theorem validate_rejects_cycles :
    (∀ (actions : List Action) (a : Action), a ∈ actions → a.kind = "SUPERSEDE" →
      a.old_id ≠ "" → walkCycle (supersedeMap actions) [] a.old_id = true →
      a ∉ (validate_actions actions).1) ∧
    ((validate_actions [supAB, supBA, goodRetag]).1 = [goodRetag] ∧
     (validate_actions [supAB, supBA, goodRetag]).2 =
       [(supAB.to_dict, "Circular supersede chain involving A"),
        (supBA.to_dict, "Circular supersede chain involving B")]) := by
  refine ⟨fun actions a _ha hk ho hw hmem => ?_, ?_, ?_⟩
  · have hr := @mem_validateAux_none (supersedeMap actions) a actions hmem
    simp [validateReason, hk, ho, hw] at hr
  · have hsm : supersedeMap [supAB, supBA, goodRetag] = [("A", "B"), ("B", "A")] := rfl
    unfold validate_actions
    rw [hsm]
    simp [validateAux, validateReason, supAB, supBA, goodRetag, walkCycleA, walkCycleB]
  · have hsm : supersedeMap [supAB, supBA, goodRetag] = [("A", "B"), ("B", "A")] := rfl
    unfold validate_actions
    rw [hsm]
    simp [validateAux, validateReason, supAB, supBA, goodRetag, walkCycleA, walkCycleB]

/-- Witness for C4 at the concrete cyclic batch: SUPERSEDE(A→B) is
rejected. -/
theorem validate_rejects_cycles_witness :
    supAB ∉ (validate_actions [supAB, supBA, goodRetag]).1 :=
  validate_rejects_cycles.1 [supAB, supBA, goodRetag] supAB (by decide) rfl
    (by decide) walkCycleA

/-- Every action emitted by the pair loop of `detect_conflicts` is the
`conflictAction` of some pair of the loop's pair list. -/
theorem mem_conflictPairs_shape {active : Needs} {ps : List (String × String)}
    {seen : List (String × String)} {a : Action}
    (h : a ∈ (conflictPairs active ps seen).1) :
    ∃ p ∈ ps, a = conflictAction p.1 p.2 (lookupNeed active p.1) (lookupNeed active p.2) := by
  induction ps generalizing seen with
  | nil => simp [conflictPairs] at h
  | cons q qs ih =>
    rcases q with ⟨id1, id2⟩
    simp only [conflictPairs] at h
    split at h
    · obtain ⟨p, hp, he⟩ := ih h
      exact ⟨p, List.mem_cons_of_mem _ hp, he⟩
    · split at h
      · rcases List.mem_cons.mp h with rfl | h2
        · exact ⟨(id1, id2), List.mem_cons_self _ _, rfl⟩
        · obtain ⟨p, hp, he⟩ := ih h2
          exact ⟨p, List.mem_cons_of_mem _ hp, he⟩
      · obtain ⟨p, hp, he⟩ := ih h
        exact ⟨p, List.mem_cons_of_mem _ hp, he⟩

/-- Every action emitted by `conflictsAux` is the `conflictAction` of a
pair drawn from one of its topic groups. -/
theorem mem_conflictsAux_shape {active : Needs}
    {groups : List (String × List String)} {seen : List (String × String)} {a : Action}
    (h : a ∈ conflictsAux active groups seen) :
    ∃ g ∈ groups, ∃ p ∈ dupPairs g.2,
      a = conflictAction p.1 p.2 (lookupNeed active p.1) (lookupNeed active p.2) := by
  induction groups generalizing seen with
  | nil => simp [conflictsAux] at h
  | cons g gs ih =>
    rcases g with ⟨t, ids⟩
    simp only [conflictsAux] at h
    split at h
    · obtain ⟨g2, hg, p, hp, he⟩ := ih h
      exact ⟨g2, List.mem_cons_of_mem _ hg, p, hp, he⟩
    · rcases List.mem_append.mp h with h1 | h2
      · obtain ⟨p, hp, he⟩ := mem_conflictPairs_shape h1
        exact ⟨(t, ids), List.mem_cons_self _ _, p, hp, he⟩
      · obtain ⟨g2, hg, p, hp, he⟩ := ih h2
        exact ⟨g2, List.mem_cons_of_mem _ hg, p, hp, he⟩

/-- C9 (executor half is stated over the abstract store primitives;
the planner half is over `detect_conflicts`): every UPDATE emitted by
`detect_conflicts` has empty `field_changes`, and executing any UPDATE
action with empty `field_changes` succeeds with the "No field changes"
message and leaves the store state unchanged — no mutation primitive is
invoked. -/
theorem conflicts_update_noop :
    (∀ needs : Needs, ∀ a ∈ detect_conflicts needs,
        a.kind = "UPDATE" ∧ a.field_changes = []) ∧
    (∀ (σ : Type) (p : StorePrims σ) (s : σ) (a : Action), a.field_changes = [] →
        execUpdate p s a = (.ok (true, "No field changes for " ++ a.id), s)) := by
  constructor
  · intro needs a ha
    obtain ⟨g, _, p, _, rfl⟩ := mem_conflictsAux_shape ha
    exact ⟨rfl, rfl⟩
  · intro σ p s a h
    simp [execUpdate, h]

/-- Witness for C9: executing a field-change-free UPDATE against the
concrete counting store leaves the state at its initial value. -/
theorem conflicts_update_noop_witness :
    execUpdate okPrims 7 { kind := "UPDATE", id := "MEM_1" } =
      (.ok (true, "No field changes for MEM_1"), 7) :=
  conflicts_update_noop.2 Nat okPrims 7 { kind := "UPDATE", id := "MEM_1" } rfl

/-!
## Duplicate-detection claims (C5, C6)
-/

theorem sortPair_comm (a b : String) : sortPair a b = sortPair b a := by
  unfold sortPair
  rcases le_total a b with h | h
  · by_cases h2 : b ≤ a
    · have he : a = b := le_antisymm h h2
      subst he; simp
    · simp [h, h2]
  · by_cases h2 : a ≤ b
    · have he : a = b := le_antisymm h2 h
      subst he; simp
    · simp [h, h2]

theorem sortPair_eq {a b c d : String} (h : sortPair a b = sortPair c d) :
    (a = c ∧ b = d) ∨ (a = d ∧ b = c) := by
  unfold sortPair at h
  split at h <;> split at h <;> simp only [Prod.mk.injEq] at h <;> tauto

theorem mem_dupPairs_fst_snd {α : Type _} {l : List α} {p : α × α}
    (h : p ∈ dupPairs l) : p.1 ∈ l ∧ p.2 ∈ l := by
  induction l with
  | nil => simp [dupPairs] at h
  | cons x xs ih =>
    simp only [dupPairs, List.mem_append, List.mem_map] at h
    rcases h with ⟨y, hy, rfl⟩ | h
    · exact ⟨List.mem_cons_self _ _, List.mem_cons_of_mem _ hy⟩
    · obtain ⟨hh1, hh2⟩ := ih h
      exact ⟨List.mem_cons_of_mem _ hh1, List.mem_cons_of_mem _ hh2⟩

theorem dupPairs_mem_of_mem {α : Type _} {l : List α} {x y : α}
    (hx : x ∈ l) (hy : y ∈ l) (hne : x ≠ y) :
    (x, y) ∈ dupPairs l ∨ (y, x) ∈ dupPairs l := by
  induction l with
  | nil => cases hx
  | cons z zs ih =>
    rcases List.mem_cons.mp hx with rfl | hx2
    · have hy2 : y ∈ zs := by
        rcases List.mem_cons.mp hy with rfl | h
        · exact absurd rfl hne
        · exact h
      left
      simp only [dupPairs, List.mem_append, List.mem_map]
      exact Or.inl ⟨y, hy2, rfl⟩
    · rcases List.mem_cons.mp hy with rfl | hy2
      · right
        simp only [dupPairs, List.mem_append, List.mem_map]
        exact Or.inl ⟨x, hx2, rfl⟩
      · rcases ih hx2 hy2 with h | h
        · left
          simp only [dupPairs, List.mem_append]
          exact Or.inr h
        · right
          simp only [dupPairs, List.mem_append]
          exact Or.inr h

theorem dupPairs_keys_ne {l : Needs} (hnd : (l.map (·.1)).Nodup)
    {p : (String × Need) × String × Need} (hp : p ∈ dupPairs l) :
    p.1.1 ≠ p.2.1 := by
  induction l with
  | nil => simp [dupPairs] at hp
  | cons x xs ih =>
    simp only [List.map_cons, List.nodup_cons] at hnd
    obtain ⟨hx, hnd2⟩ := hnd
    simp only [dupPairs, List.mem_append, List.mem_map] at hp
    rcases hp with ⟨y, hy, rfl⟩ | hp
    · intro he
      exact hx (he ▸ List.mem_map.mpr ⟨y, hy, rfl⟩)
    · exact ih hnd2 hp

theorem dupPairs_pairKey_nodup {l : Needs} (hnd : (l.map (·.1)).Nodup) :
    ((dupPairs l).map pairKey).Nodup := by
  induction l with
  | nil => simp [dupPairs]
  | cons x xs ih =>
    simp only [List.map_cons, List.nodup_cons] at hnd
    obtain ⟨hx, hnd2⟩ := hnd
    simp only [dupPairs, List.map_append]
    rw [List.nodup_append]
    refine ⟨?_, ih hnd2, ?_⟩
    · rw [List.map_map]
      apply List.Nodup.map_on ?_ (List.Nodup.of_map (·.1) hnd2)
      intro y hy z hz he
      have hxy : x.1 ≠ y.1 := fun hh => hx (hh ▸ List.mem_map.mpr ⟨y, hy, rfl⟩)
      have hxz : x.1 ≠ z.1 := fun hh => hx (hh ▸ List.mem_map.mpr ⟨z, hz, rfl⟩)
      have he2 : sortPair x.1 y.1 = sortPair x.1 z.1 := he
      rcases sortPair_eq he2 with ⟨_, h2⟩ | ⟨h1, _⟩
      · exact List.inj_on_of_nodup_map hnd2 hy hz h2
      · exact absurd h1 hxz
    · intro k hk1 hk2
      rw [List.map_map] at hk1
      obtain ⟨y, hy, rfl⟩ := List.mem_map.mp hk1
      obtain ⟨q, hq, heq⟩ := List.mem_map.mp hk2
      have hq12 := mem_dupPairs_fst_snd hq
      have heq2 : sortPair q.1.1 q.2.1 = sortPair x.1 y.1 := heq
      rcases sortPair_eq heq2 with ⟨h1, _⟩ | ⟨_, h2⟩
      · exact hx (h1 ▸ List.mem_map.mpr ⟨q.1, hq12.1, rfl⟩)
      · exact hx (h2 ▸ List.mem_map.mpr ⟨q.2, hq12.2, rfl⟩)

/-- With pairwise-distinct pair keys (true whenever the snapshot's ids
are unique) and a disjoint initial `seen`, the `seen_pairs` check of
`detect_duplicates` never fires, so the loop is the pointwise emission
over all ordered pairs. -/
theorem detectDuplicatesAux_eq_filterMap (sim : String → String → ℚ) (tt tov : ℚ) :
    ∀ (ps : List ((String × Need) × String × Need)) (seen : List (String × String)),
      (ps.map pairKey).Nodup → (∀ p ∈ ps, pairKey p ∉ seen) →
      detectDuplicatesAux sim tt tov ps seen = ps.filterMap (dupEmit sim tt tov) := by
  intro ps
  induction ps with
  | nil => intro seen _ _; rfl
  | cons p ps ih =>
    intro seen hnd hseen
    simp only [List.map_cons, List.nodup_cons] at hnd
    obtain ⟨hp, hnd2⟩ := hnd
    have hps : pairKey p ∉ seen := hseen p (List.mem_cons_self _ _)
    rw [List.filterMap_cons]
    cases he : dupEmit sim tt tov p with
    | none =>
      simp only [detectDuplicatesAux, he]
      have hps2 : sortPair p.1.1 p.2.1 ∉ seen := hps
      rw [if_neg hps2]
      exact ih seen hnd2 fun q hq => hseen q (List.mem_cons_of_mem _ hq)
    | some a =>
      simp only [detectDuplicatesAux, he]
      have hps2 : sortPair p.1.1 p.2.1 ∉ seen := hps
      rw [if_neg hps2]
      congr 1
      apply ih
      · exact hnd2
      · intro q hq hmem
        rcases List.mem_cons.mp hmem with heq | hin
        · have heq2 : pairKey q = pairKey p := heq
          exact hp (heq2 ▸ List.mem_map.mpr ⟨q, hq, rfl⟩)
        · exact hseen q (List.mem_cons_of_mem _ hq) hin

theorem dupEmit_eq_some {sim : String → String → ℚ} {tt tov : ℚ}
    {p : (String × Need) × String × Need} {a : Action}
    (h : dupEmit sim tt tov p = some a) :
    dupPass sim tt tov p.1.2 p.2.2 = true ∧
      a = dupAction sim p.1.1 p.1.2 p.2.1 p.2.2 := by
  unfold dupEmit at h
  split at h
  · exact ⟨by assumption, (Option.some.injEq _ _ ▸ h).symm⟩
  · cases h

theorem dupEmit_of_pass {sim : String → String → ℚ} {tt tov : ℚ}
    {p : (String × Need) × String × Need}
    (h : dupPass sim tt tov p.1.2 p.2.2 = true) :
    dupEmit sim tt tov p = some (dupAction sim p.1.1 p.1.2 p.2.1 p.2.2) := by
  unfold dupEmit
  rw [if_pos h]

theorem dupAction_pairKey (sim : String → String → ℚ) (id1 : String) (n1 : Need)
    (id2 : String) (n2 : Need) :
    actionPairKey (dupAction sim id1 n1 id2 n2) = sortPair id1 id2 := by
  unfold actionPairKey dupAction
  by_cases h : scoreLt (score n1) (score n2)
  · simp [h]
  · simp [h, sortPair_comm]

theorem dupAction_ids (sim : String → String → ℚ) (id1 : String) (n1 : Need)
    (id2 : String) (n2 : Need) :
    ((dupAction sim id1 n1 id2 n2).old_id = id1 ∧
      (dupAction sim id1 n1 id2 n2).by_id = id2 ∧ scoreLt (score n1) (score n2)) ∨
    ((dupAction sim id1 n1 id2 n2).old_id = id2 ∧
      (dupAction sim id1 n1 id2 n2).by_id = id1 ∧ ¬ scoreLt (score n1) (score n2)) := by
  unfold dupAction
  by_cases h : scoreLt (score n1) (score n2)
  · left; simp [h]
  · right; simp [h]

theorem dupAction_id (sim : String → String → ℚ) (id1 : String) (n1 : Need)
    (id2 : String) (n2 : Need) : (dupAction sim id1 n1 id2 n2).id = "" := by
  unfold dupAction
  by_cases h : scoreLt (score n1) (score n2) <;> simp [h]

theorem toFinset_dedup (l : List String) : l.dedup.toFinset = l.toFinset := by
  ext x; simp [List.mem_dedup]

theorem tagInter_nodup (t1 t2 : List String) : (tagInter t1 t2).Nodup :=
  (List.nodup_dedup t1).filter _

theorem tagInter_toFinset (t1 t2 : List String) :
    (tagInter t1 t2).toFinset = t1.toFinset ∩ t2.toFinset := by
  ext x
  simp [tagInter, List.mem_filter, List.mem_dedup]

theorem tagInter_length (t1 t2 : List String) :
    (tagInter t1 t2).length = (t1.toFinset ∩ t2.toFinset).card := by
  rw [← tagInter_toFinset, List.toFinset_card_of_nodup (tagInter_nodup t1 t2)]

theorem tagUnion_toFinset (t1 t2 : List String) :
    (tagUnion t1 t2).toFinset = t1.toFinset ∪ t2.toFinset := by
  unfold tagUnion
  rw [toFinset_dedup, List.toFinset_append]

theorem tagUnion_length (t1 t2 : List String) :
    (tagUnion t1 t2).length = (t1.toFinset ∪ t2.toFinset).card := by
  have hnd : (tagUnion t1 t2).Nodup := List.nodup_dedup _
  rw [← tagUnion_toFinset, List.toFinset_card_of_nodup hnd]

theorem tagUnion_nil_iff (t1 t2 : List String) :
    tagUnion t1 t2 = [] ↔ t1 = [] ∧ t2 = [] := by
  unfold tagUnion
  constructor
  · intro h
    have h2 : t1 ++ t2 = [] := by
      cases ht : t1 ++ t2 with
      | nil => rfl
      | cons x xs =>
        exfalso
        have hm : x ∈ (t1 ++ t2).dedup :=
          List.mem_dedup.mpr (ht ▸ List.mem_cons_self _ _)
        rw [h] at hm
        cases hm
    exact List.append_eq_nil.mp h2
  · rintro ⟨rfl, rfl⟩; rfl

theorem dupPass_symm (sim : String → String → ℚ)
    (hsym : ∀ x y, sim x y = sim y x) (tt tov : ℚ) (n1 n2 : Need) :
    dupPass sim tt tov n1 n2 = dupPass sim tt tov n2 n1 := by
  simp only [dupPass]
  rw [hsym (strLower n1.title) (strLower n2.title)]
  by_cases hs : tt ≤ sim (strLower n2.title) (strLower n1.title)
  · rw [if_neg (not_not_intro hs), if_neg (not_not_intro hs)]
    by_cases hu : tagUnion n1.tags n2.tags = []
    · have hu2 : tagUnion n2.tags n1.tags = [] := by
        rw [tagUnion_nil_iff] at hu ⊢
        exact ⟨hu.2, hu.1⟩
      rw [if_pos hu, if_pos hu2]
    · have hu2 : ¬ tagUnion n2.tags n1.tags = [] := by
        rw [tagUnion_nil_iff] at hu ⊢
        tauto
      rw [if_neg hu, if_neg hu2]
      have hi : ((tagInter n1.tags n2.tags).length : ℚ) =
          ((tagInter n2.tags n1.tags).length : ℚ) := by
        rw [tagInter_length, tagInter_length, Finset.inter_comm]
      have hl : ((tagUnion n1.tags n2.tags).length : ℚ) =
          ((tagUnion n2.tags n1.tags).length : ℚ) := by
        rw [tagUnion_length, tagUnion_length, Finset.union_comm]
      rw [hi, hl]
  · rw [if_pos hs, if_pos hs]

/-- The normal form of `detect_duplicates` for a snapshot with unique
ids: pointwise emission over the ordered pairs of active entities. -/
theorem detect_duplicates_eq_filterMap (sim : String → String → ℚ)
    (needs : Needs) (tt tov : ℚ)
    (hnd : ((activeNeeds needs).map (·.1)).Nodup) :
    detect_duplicates sim needs tt tov =
      (dupPairs (activeNeeds needs)).filterMap (dupEmit sim tt tov) := by
  unfold detect_duplicates
  exact detectDuplicatesAux_eq_filterMap sim tt tov _ []
    (dupPairs_pairKey_nodup hnd) (by simp)

/-- With pairwise-distinct pair keys, the emitted actions carry
pairwise-distinct unordered id pairs, so each key is hit at most
once. -/
theorem filterMap_dupEmit_countP_le_one (sim : String → String → ℚ) (tt tov : ℚ)
    (key : String × String) :
    ∀ (ps : List ((String × Need) × String × Need)), (ps.map pairKey).Nodup →
      (ps.filterMap (dupEmit sim tt tov)).countP (fun a => actionPairKey a = key) ≤ 1 := by
  intro ps
  induction ps with
  | nil => intro _; simp
  | cons p ps ih =>
    intro hnd
    simp only [List.map_cons, List.nodup_cons] at hnd
    obtain ⟨hp, hnd2⟩ := hnd
    rw [List.filterMap_cons]
    cases he : dupEmit sim tt tov p with
    | none => exact ih hnd2
    | some a =>
      rw [List.countP_cons]
      by_cases hk : actionPairKey a = key
      · have hz : (ps.filterMap (dupEmit sim tt tov)).countP
            (fun a => actionPairKey a = key) = 0 := by
          rw [List.countP_eq_zero]
          intro b hb
          obtain ⟨q, hq, heq⟩ := List.mem_filterMap.mp hb
          obtain ⟨_, hbq⟩ := dupEmit_eq_some heq
          obtain ⟨_, hap⟩ := dupEmit_eq_some he
          simp only [decide_eq_true_eq]
          intro hbk
          rw [hbq, dupAction_pairKey] at hbk
          rw [hap, dupAction_pairKey] at hk
          have : pairKey q = pairKey p := by
            have h1 : pairKey q = sortPair q.1.1 q.2.1 := rfl
            have h2 : pairKey p = sortPair p.1.1 p.2.1 := rfl
            rw [h1, h2, hbk, hk]
          exact hp (this ▸ List.mem_map.mpr ⟨q, hq, rfl⟩)
        rw [hz]
        simp [hk]
      · have hcount := ih hnd2
        simp only [hk]
        simpa using hcount

/-- C5: for a snapshot with unique ids and a symmetric similarity (as
the Ratcliff/Obershelp ratio of the spec is), `detect_duplicates` emits
a SUPERSEDE action for an unordered pair of distinct active entities iff
the lower-cased-title similarity meets `title_threshold` and the
tag-set Jaccard overlap meets `tag_overlap_threshold` with a non-empty
union (the `dupPass` test), and it emits at most one action per
unordered pair. -/
theorem detect_duplicates_pair_iff (sim : String → String → ℚ)
    (hsym : ∀ x y, sim x y = sim y x) (needs : Needs) (tt tov : ℚ)
    (hnd : ((activeNeeds needs).map (·.1)).Nodup)
    (id1 : String) (n1 : Need) (id2 : String) (n2 : Need)
    (h1 : (id1, n1) ∈ activeNeeds needs) (h2 : (id2, n2) ∈ activeNeeds needs)
    (hne : id1 ≠ id2) :
    ((∃ a ∈ detect_duplicates sim needs tt tov,
        actionPairKey a = sortPair id1 id2) ↔
      dupPass sim tt tov n1 n2 = true) ∧
    (detect_duplicates sim needs tt tov).countP
        (fun a => actionPairKey a = sortPair id1 id2) ≤ 1 := by
  rw [detect_duplicates_eq_filterMap sim needs tt tov hnd]
  constructor
  · constructor
    · rintro ⟨a, ha, hkey⟩
      obtain ⟨p, hp, he⟩ := List.mem_filterMap.mp ha
      obtain ⟨hpass, hae⟩ := dupEmit_eq_some he
      rw [hae, dupAction_pairKey] at hkey
      have hmem := mem_dupPairs_fst_snd hp
      rcases sortPair_eq hkey with ⟨ha1, ha2⟩ | ⟨ha1, ha2⟩
      · have e1 : p.1 = (id1, n1) := by
          apply List.inj_on_of_nodup_map hnd hmem.1 h1
          exact ha1
        have e2 : p.2 = (id2, n2) := by
          apply List.inj_on_of_nodup_map hnd hmem.2 h2
          exact ha2
        rw [e1, e2] at hpass
        exact hpass
      · have e1 : p.1 = (id2, n2) := by
          apply List.inj_on_of_nodup_map hnd hmem.1 h2
          exact ha1
        have e2 : p.2 = (id1, n1) := by
          apply List.inj_on_of_nodup_map hnd hmem.2 h1
          exact ha2
        rw [e1, e2] at hpass
        rw [dupPass_symm sim hsym] at hpass
        exact hpass
    · intro hpass
      have hpne : ((id1, n1) : String × Need) ≠ (id2, n2) := by
        intro hh
        exact hne (congrArg Prod.fst hh)
      rcases dupPairs_mem_of_mem h1 h2 hpne with hp | hp
      · refine ⟨dupAction sim id1 n1 id2 n2, ?_, dupAction_pairKey sim id1 n1 id2 n2⟩
        exact List.mem_filterMap.mpr ⟨((id1, n1), (id2, n2)), hp, dupEmit_of_pass hpass⟩
      · refine ⟨dupAction sim id2 n2 id1 n1, ?_, ?_⟩
        · refine List.mem_filterMap.mpr ⟨((id2, n2), (id1, n1)), hp, dupEmit_of_pass ?_⟩
          rw [dupPass_symm sim hsym] at hpass
          exact hpass
        · rw [dupAction_pairKey, sortPair_comm]
  · exact filterMap_dupEmit_countP_le_one sim tt tov _ _ (dupPairs_pairKey_nodup hnd)

/-- Witness for C5 at the concrete two-entity snapshot with the
constant similarity 1: the pair passes and exactly one action carries
its unordered id pair. -/
theorem detect_duplicates_pair_iff_witness :
    ((∃ a ∈ detect_duplicates simOne dupExampleNeeds (4/5) (1/2),
        actionPairKey a = sortPair "MEM_med" "MEM_high") ↔
      dupPass simOne (4/5) (1/2) needMedium needHigh = true) ∧
    (detect_duplicates simOne dupExampleNeeds (4/5) (1/2)).countP
        (fun a => actionPairKey a = sortPair "MEM_med" "MEM_high") ≤ 1 :=
  detect_duplicates_pair_iff simOne (fun _ _ => rfl) dupExampleNeeds (4/5) (1/2)
    (by decide) "MEM_med" needMedium "MEM_high" needHigh
    (by decide) (by decide) (by decide)

/-- Every action of the duplicate loop is emitted from one of its
pairs (no uniqueness assumption needed). -/
theorem mem_detectDuplicatesAux {sim : String → String → ℚ} {tt tov : ℚ} :
    ∀ {ps : List ((String × Need) × String × Need)}
      {seen : List (String × String)} {a : Action},
      a ∈ detectDuplicatesAux sim tt tov ps seen →
      ∃ p ∈ ps, dupEmit sim tt tov p = some a := by
  intro ps
  induction ps with
  | nil => intro seen a ha; simp [detectDuplicatesAux] at ha
  | cons p ps ih =>
    intro seen a ha
    simp only [detectDuplicatesAux] at ha
    split at ha
    · obtain ⟨q, hq, he⟩ := ih ha
      exact ⟨q, List.mem_cons_of_mem _ hq, he⟩
    · split at ha
      · next b he =>
        rcases List.mem_cons.mp ha with rfl | ha2
        · exact ⟨p, List.mem_cons_self _ _, he⟩
        · obtain ⟨q, hq, he2⟩ := ih ha2
          exact ⟨q, List.mem_cons_of_mem _ hq, he2⟩
      · obtain ⟨q, hq, he⟩ := ih ha
        exact ⟨q, List.mem_cons_of_mem _ hq, he⟩

theorem scoreLt_asymm {s t : Nat × String} (h : scoreLt s t) : ¬ scoreLt t s := by
  unfold scoreLt at *
  rcases h with h | ⟨he, hs⟩
  · rintro (h2 | ⟨he2, _⟩)
    · omega
    · omega
  · rintro (h2 | ⟨he2, hs2⟩)
    · omega
    · exact absurd hs (lt_asymm hs2)

theorem scoreLt_of_ne_not_lt {s t : Nat × String} (hne : s ≠ t)
    (h : ¬ scoreLt s t) : scoreLt t s := by
  unfold scoreLt at *
  push_neg at h
  obtain ⟨h1, h2⟩ := h
  rcases lt_trichotomy t.1 s.1 with hlt | heq | hgt
  · exact Or.inl hlt
  · rcases lt_trichotomy t.2 s.2 with hlt2 | heq2 | hgt2
    · exact Or.inr ⟨heq, hlt2⟩
    · exact absurd (Prod.ext heq.symm heq2.symm) hne
    · exact absurd hgt2 (h2 heq.symm)
  · omega

/-- C6: for every emitted SUPERSEDE, the kept entity (`by_id`) never has
a smaller composite score `(confidence_rank, created_at)` than the
deprecated one, and whenever the two scores differ the kept entity's
score is strictly larger; in particular for the (medium, 2026-01-10) /
(high, 2026-01-15) pair the high-confidence entity is always `by_id`. -/
theorem detect_duplicates_keeps_higher_score :
    (∀ (sim : String → String → ℚ) (needs : Needs) (tt tov : ℚ) (a : Action),
       a ∈ detect_duplicates sim needs tt tov →
       ∃ nOld nBy, (a.old_id, nOld) ∈ activeNeeds needs ∧
         (a.by_id, nBy) ∈ activeNeeds needs ∧ ¬ scoreLt (score nBy) (score nOld) ∧
         (score nOld ≠ score nBy → scoreLt (score nOld) (score nBy))) ∧
    (∀ sim : String → String → ℚ,
       (4/5 : ℚ) ≤ sim "gateway timeout is 30 seconds" "gateway timeout is 30 seconds" →
       (detect_duplicates sim dupExampleNeeds (4/5) (1/2)).map
           (fun a => (a.old_id, a.by_id)) = [("MEM_med", "MEM_high")]) := by
  constructor
  · intro sim needs tt tov a ha
    unfold detect_duplicates at ha
    obtain ⟨p, hp, he⟩ := mem_detectDuplicatesAux ha
    obtain ⟨hpass, rfl⟩ := dupEmit_eq_some he
    have hmem := mem_dupPairs_fst_snd hp
    rcases dupAction_ids sim p.1.1 p.1.2 p.2.1 p.2.2 with ⟨ho, hb, hlt⟩ | ⟨ho, hb, hnlt⟩
    · refine ⟨p.1.2, p.2.2, ?_, ?_, scoreLt_asymm hlt, fun _ => hlt⟩
      · rw [ho]; simpa using hmem.1
      · rw [hb]; simpa using hmem.2
    · refine ⟨p.2.2, p.1.2, ?_, ?_, hnlt, ?_⟩
      · rw [ho]; simpa using hmem.2
      · rw [hb]; simpa using hmem.1
      · intro hne
        exact scoreLt_of_ne_not_lt (fun hh => hne hh.symm) hnlt
  · intro sim hsim
    have hpass : dupPass sim (4/5) (1/2) needMedium needHigh = true := by
      simp only [dupPass]
      rw [show strLower needMedium.title = "gateway timeout is 30 seconds" from rfl]
      rw [show strLower needHigh.title = "gateway timeout is 30 seconds" from rfl]
      rw [if_neg (not_not_intro hsim)]
      have hu : ¬ tagUnion needMedium.tags needHigh.tags = [] := by decide
      rw [if_neg hu]
      rw [show (tagInter needMedium.tags needHigh.tags).length = 2 from by decide]
      rw [show (tagUnion needMedium.tags needHigh.tags).length = 2 from by decide]
      simp only [decide_eq_true_eq]
      norm_num
    have hemit : dupEmit sim (4/5) (1/2) (("MEM_med", needMedium), ("MEM_high", needHigh)) =
        some (dupAction sim "MEM_med" needMedium "MEM_high" needHigh) :=
      dupEmit_of_pass hpass
    have hfm : detect_duplicates sim dupExampleNeeds (4/5) (1/2) =
        [dupAction sim "MEM_med" needMedium "MEM_high" needHigh] := by
      rw [detect_duplicates_eq_filterMap sim dupExampleNeeds (4/5) (1/2) (by decide)]
      have hdp : dupPairs (activeNeeds dupExampleNeeds) =
          [(("MEM_med", needMedium), ("MEM_high", needHigh))] := rfl
      rw [hdp, List.filterMap_cons, hemit]
      rfl
    rw [hfm]
    have hsc : scoreLt (score needMedium) (score needHigh) := by
      have h1 : score needMedium = (1, "2026-01-10") := rfl
      have h2 : score needHigh = (2, "2026-01-15") := rfl
      rw [scoreLt, h1, h2]
      left
      norm_num
    simp only [List.map_cons, List.map_nil, dupAction, hsc, if_pos]

/-- Witness for C6 with the constant similarity 1. -/
theorem detect_duplicates_keeps_higher_score_witness :
    (detect_duplicates simOne dupExampleNeeds (4/5) (1/2)).map
        (fun a => (a.old_id, a.by_id)) = [("MEM_med", "MEM_high")] :=
  detect_duplicates_keeps_higher_score.2 simOne (by rw [simOne]; norm_num)

/-!
## Deprecated exclusion (C7)
-/

/-- A deprecated entity's id never survives into the active snapshot. -/
theorem not_mem_active_keys {needs : Needs} {nid : String} {need : Need}
    (hnd : (needs.map (·.1)).Nodup) (hmem : (nid, need) ∈ needs)
    (hdep : need.status = "deprecated") :
    nid ∉ (activeNeeds needs).map (·.1) := by
  intro hmem2
  obtain ⟨kv, hkv, hfst⟩ := List.mem_map.mp hmem2
  have hfil := List.mem_filter.mp hkv
  have he : kv = (nid, need) :=
    List.inj_on_of_nodup_map hnd hfil.1 hmem (by rw [hfst])
  have hstat := hfil.2
  rw [he] at hstat
  simp [hdep] at hstat

theorem detect_duplicates_range (sim : String → String → ℚ) (needs : Needs)
    (tt tov : ℚ) : ∀ a ∈ detect_duplicates sim needs tt tov,
    a.id = "" ∧ a.old_id ∈ (activeNeeds needs).map (·.1) ∧
      a.by_id ∈ (activeNeeds needs).map (·.1) := by
  intro a ha
  unfold detect_duplicates at ha
  obtain ⟨p, hp, he⟩ := mem_detectDuplicatesAux ha
  obtain ⟨_, rfl⟩ := dupEmit_eq_some he
  have hmem := mem_dupPairs_fst_snd hp
  have hm1 : p.1.1 ∈ (activeNeeds needs).map (·.1) := List.mem_map.mpr ⟨p.1, hmem.1, rfl⟩
  have hm2 : p.2.1 ∈ (activeNeeds needs).map (·.1) := List.mem_map.mpr ⟨p.2, hmem.2, rfl⟩
  refine ⟨dupAction_id _ _ _ _ _, ?_⟩
  rcases dupAction_ids sim p.1.1 p.1.2 p.2.1 p.2.2 with ⟨ho, hb, _⟩ | ⟨ho, hb, _⟩
  · rw [ho, hb]; exact ⟨hm1, hm2⟩
  · rw [ho, hb]; exact ⟨hm2, hm1⟩

theorem detect_missing_tags_range (needs : Needs) :
    ∀ a ∈ detect_missing_tags needs,
      a.id ∈ (activeNeeds needs).map (·.1) ∧ a.old_id = "" ∧ a.by_id = "" := by
  intro a ha
  unfold detect_missing_tags at ha
  obtain ⟨kv, hkv, he⟩ := List.mem_filterMap.mp ha
  by_cases h1 : kv.2.tags.any (·.startsWith "topic:")
  · by_cases h2 : kv.2.tags.any (·.startsWith "repo:")
    · simp [h1, h2] at he
    · simp [h1, h2] at he
      subst he
      exact ⟨List.mem_map.mpr ⟨kv, hkv, rfl⟩, rfl, rfl⟩
  · by_cases h2 : kv.2.tags.any (·.startsWith "repo:")
    · simp [h1, h2] at he
      subst he
      exact ⟨List.mem_map.mpr ⟨kv, hkv, rfl⟩, rfl, rfl⟩
    · simp [h1, h2] at he
      subst he
      exact ⟨List.mem_map.mpr ⟨kv, hkv, rfl⟩, rfl, rfl⟩

theorem detect_stale_range (today : String) (needs : Needs) :
    ∀ a ∈ detect_stale today needs,
      a.id ∈ (activeNeeds needs).map (·.1) ∧ a.old_id = "" ∧ a.by_id = "" := by
  intro a ha
  unfold detect_stale at ha
  obtain ⟨kv, hkv, he⟩ := List.mem_filterMap.mp ha
  split at he
  · injection he with he2
    subst he2
    exact ⟨List.mem_map.mpr ⟨kv, hkv, rfl⟩, rfl, rfl⟩
  · split at he
    · injection he with he2
      subst he2
      exact ⟨List.mem_map.mpr ⟨kv, hkv, rfl⟩, rfl, rfl⟩
    · cases he

theorem dictAppend_ids {m : List (String × List String)} {k v : String}
    {S : List String} (hm : ∀ g ∈ m, ∀ i ∈ g.2, i ∈ S) (hv : v ∈ S) :
    ∀ g ∈ dictAppend m k v, ∀ i ∈ g.2, i ∈ S := by
  intro g hg i hi
  unfold dictAppend at hg
  split at hg
  · obtain ⟨g0, hg0, rfl⟩ := List.mem_map.mp hg
    by_cases hc : g0.1 = k
    · rw [if_pos hc] at hi
      simp only at hi
      rcases List.mem_append.mp hi with h | h
      · exact hm g0 hg0 i h
      · rw [List.mem_singleton.mp h]; exact hv
    · rw [if_neg hc] at hi
      exact hm g0 hg0 i hi
  · rcases List.mem_append.mp hg with h | h
    · exact hm g h i hi
    · rw [List.mem_singleton.mp h] at hi
      simp only at hi
      rw [List.mem_singleton.mp hi]
      exact hv

theorem foldTags_ids {S : List String} {nid : String} (hnid : nid ∈ S) :
    ∀ (tags : List String) (m : List (String × List String)),
      (∀ g ∈ m, ∀ i ∈ g.2, i ∈ S) →
      ∀ g ∈ tags.foldl
          (fun m2 t => if t.startsWith "topic:" then dictAppend m2 t nid else m2) m,
        ∀ i ∈ g.2, i ∈ S := by
  intro tags
  induction tags with
  | nil => intro m hm; exact hm
  | cons t ts ih =>
    intro m hm
    simp only [List.foldl_cons]
    by_cases hc : t.startsWith "topic:"
    · rw [if_pos hc]
      exact ih _ (dictAppend_ids hm hnid)
    · rw [if_neg hc]
      exact ih _ hm

theorem byTopic_fold_ids {S : List String} :
    ∀ (l : Needs) (m : List (String × List String)),
      (∀ kv ∈ l, kv.1 ∈ S) → (∀ g ∈ m, ∀ i ∈ g.2, i ∈ S) →
      ∀ g ∈ l.foldl
          (fun m kv =>
            if kv.2.type = "dec" ∨ kv.2.type = "pref" then
              kv.2.tags.foldl
                (fun m2 t => if t.startsWith "topic:" then dictAppend m2 t kv.1 else m2) m
            else m)
          m,
        ∀ i ∈ g.2, i ∈ S := by
  intro l
  induction l with
  | nil => intro m _ hm; exact hm
  | cons kv rest ih =>
    intro m hl hm
    simp only [List.foldl_cons]
    by_cases hc : kv.2.type = "dec" ∨ kv.2.type = "pref"
    · rw [if_pos hc]
      apply ih _ (fun x hx => hl x (List.mem_cons_of_mem _ hx))
      exact foldTags_ids (hl kv (List.mem_cons_self _ _)) _ _ hm
    · rw [if_neg hc]
      exact ih _ (fun x hx => hl x (List.mem_cons_of_mem _ hx)) hm

theorem byTopic_ids {active : Needs} :
    ∀ g ∈ byTopic active, ∀ i ∈ g.2, i ∈ active.map (·.1) := by
  unfold byTopic
  exact byTopic_fold_ids active []
    (fun kv hkv => List.mem_map.mpr ⟨kv, hkv, rfl⟩) (by simp)

theorem detect_conflicts_range (needs : Needs) :
    ∀ a ∈ detect_conflicts needs,
      a.id ∈ (activeNeeds needs).map (·.1) ∧ a.old_id = "" ∧ a.by_id = "" := by
  intro a ha
  unfold detect_conflicts at ha
  obtain ⟨g, hg, p, hp, rfl⟩ := mem_conflictsAux_shape ha
  have hmem := mem_dupPairs_fst_snd hp
  exact ⟨byTopic_ids g hg p.1 hmem.1, rfl, rfl⟩

theorem detect_tag_normalization_range (needs : Needs) :
    ∀ a ∈ detect_tag_normalization needs,
      a.id ∈ (activeNeeds needs).map (·.1) ∧ a.old_id = "" ∧ a.by_id = "" := by
  intro a ha
  unfold detect_tag_normalization at ha
  obtain ⟨g, _, hin⟩ := List.mem_flatMap.mp ha
  simp only at hin
  split at hin
  · cases hin
  · obtain ⟨form, _, hin2⟩ := List.mem_flatMap.mp hin
    obtain ⟨kv, hkv, he⟩ := List.mem_filterMap.mp hin2
    split at he
    · injection he with he2
      subst he2
      exact ⟨List.mem_map.mpr ⟨kv, hkv, rfl⟩, rfl, rfl⟩
    · cases he

/-- C7: an entity whose status is "deprecated" never appears in the
output of any snapshot detector — neither as the action's `id` nor as
`old_id` nor as `by_id` — regardless of its title or tag similarity to
active entities.  (`nid ≠ ""` separates the entity's id from the empty
string that unset id fields carry.) -/
theorem deprecated_excluded (needs : Needs) (nid : String) (need : Need)
    (sim : String → String → ℚ) (tt tov : ℚ) (today : String)
    (hnd : (needs.map (·.1)).Nodup) (hmem : (nid, need) ∈ needs)
    (hdep : need.status = "deprecated") (hne : nid ≠ "") :
    (∀ a ∈ detect_duplicates sim needs tt tov,
      a.id ≠ nid ∧ a.old_id ≠ nid ∧ a.by_id ≠ nid) ∧
    (∀ a ∈ detect_missing_tags needs,
      a.id ≠ nid ∧ a.old_id ≠ nid ∧ a.by_id ≠ nid) ∧
    (∀ a ∈ detect_stale today needs,
      a.id ≠ nid ∧ a.old_id ≠ nid ∧ a.by_id ≠ nid) ∧
    (∀ a ∈ detect_conflicts needs,
      a.id ≠ nid ∧ a.old_id ≠ nid ∧ a.by_id ≠ nid) ∧
    (∀ a ∈ detect_tag_normalization needs,
      a.id ≠ nid ∧ a.old_id ≠ nid ∧ a.by_id ≠ nid) := by
  have hact := not_mem_active_keys hnd hmem hdep
  have hkey : ∀ s : String, s ∈ (activeNeeds needs).map (·.1) → s ≠ nid :=
    fun s hs he => hact (he ▸ hs)
  have hempty : ∀ s : String, s = "" → s ≠ nid := fun s hs he => hne (he.symm.trans hs)
  refine ⟨?_, ?_, ?_, ?_, ?_⟩
  · intro a ha
    obtain ⟨h1, h2, h3⟩ := detect_duplicates_range sim needs tt tov a ha
    exact ⟨hempty _ h1, hkey _ h2, hkey _ h3⟩
  · intro a ha
    obtain ⟨h1, h2, h3⟩ := detect_missing_tags_range needs a ha
    exact ⟨hkey _ h1, hempty _ h2, hempty _ h3⟩
  · intro a ha
    obtain ⟨h1, h2, h3⟩ := detect_stale_range today needs a ha
    exact ⟨hkey _ h1, hempty _ h2, hempty _ h3⟩
  · intro a ha
    obtain ⟨h1, h2, h3⟩ := detect_conflicts_range needs a ha
    exact ⟨hkey _ h1, hempty _ h2, hempty _ h3⟩
  · intro a ha
    obtain ⟨h1, h2, h3⟩ := detect_tag_normalization_range needs a ha
    exact ⟨hkey _ h1, hempty _ h2, hempty _ h3⟩

/-- Witness for C7 at a snapshot with a deprecated entity textually
identical to an active one: the RETAG that `detect_missing_tags` emits
for the active entity does not target the deprecated id. -/
theorem deprecated_excluded_witness :
    ({ kind := "RETAG", reason := "Missing required tag prefix(es): topic:, repo:",
       id := "live" } : Action).id ≠ "dead" ∧
    ({ kind := "RETAG", reason := "Missing required tag prefix(es): topic:, repo:",
       id := "live" } : Action).old_id ≠ "dead" ∧
    ({ kind := "RETAG", reason := "Missing required tag prefix(es): topic:, repo:",
       id := "live" } : Action).by_id ≠ "dead" :=
  (deprecated_excluded c7Needs "dead" deadNeed simOne (4/5) (1/2) "2026-02-01"
    (by decide) (by decide) rfl (by decide)).2.1 _ (by decide)

/-!
## Tag normalization (C8)
-/

theorem addForm_lower {g : List (String × List String)} {low t : String}
    (hg : ∀ e ∈ g, ∀ f ∈ e.2, strLower f = e.1) (ht : strLower t = low) :
    ∀ e ∈ addForm g low t, ∀ f ∈ e.2, strLower f = e.1 := by
  intro e he f hf
  unfold addForm at he
  split at he
  · obtain ⟨e0, he0, heq⟩ := List.mem_map.mp he
    by_cases hc : e0.1 = low
    · rw [if_pos hc] at heq
      subst heq
      show strLower f = e0.1
      by_cases hm : t ∈ e0.2
      · rw [if_pos hm] at hf
        exact hg e0 he0 f hf
      · rw [if_neg hm] at hf
        rcases List.mem_append.mp hf with h | h
        · exact hg e0 he0 f h
        · rw [List.mem_singleton.mp h, ht]
          exact hc.symm
    · rw [if_neg hc] at heq
      subst heq
      exact hg e0 he0 f hf
  · rcases List.mem_append.mp he with h | h
    · exact hg e h f hf
    · rw [List.mem_singleton.mp h] at hf ⊢
      show strLower f = low
      rw [List.mem_singleton.mp hf]
      exact ht

theorem lowerGroups_fold_lower :
    ∀ (ts : List String) (g : List (String × List String)),
      (∀ e ∈ g, ∀ f ∈ e.2, strLower f = e.1) →
      ∀ e ∈ ts.foldl (fun g t => addForm g (strLower t) t) g, ∀ f ∈ e.2,
        strLower f = e.1 := by
  intro ts
  induction ts with
  | nil => intro g hg; exact hg
  | cons t ts2 ih =>
    intro g hg
    simp only [List.foldl_cons]
    exact ih _ (addForm_lower hg rfl)

theorem lowerGroups_lower {usage : List (String × Nat)} :
    ∀ e ∈ lowerGroups usage, ∀ f ∈ e.2, strLower f = e.1 := by
  unfold lowerGroups
  exact lowerGroups_fold_lower _ [] (by simp)

theorem fold_maxByUsage_invariant (usage : List (String × Nat)) :
    ∀ (fs : List String) (acc : String),
      usageOf usage acc ≤
          usageOf usage (fs.foldl
            (fun best t => if usageOf usage best < usageOf usage t then t else best) acc) ∧
        (fs.foldl (fun best t => if usageOf usage best < usageOf usage t then t else best)
            acc = acc ∨
          fs.foldl (fun best t => if usageOf usage best < usageOf usage t then t else best)
            acc ∈ fs) ∧
        ∀ t ∈ fs,
          usageOf usage t ≤
            usageOf usage (fs.foldl
              (fun best t => if usageOf usage best < usageOf usage t then t else best) acc) := by
  intro fs
  induction fs with
  | nil => intro acc; exact ⟨le_refl _, Or.inl rfl, by simp⟩
  | cons x xs ih =>
    intro acc
    simp only [List.foldl_cons]
    by_cases hc : usageOf usage acc < usageOf usage x
    · rw [if_pos hc]
      obtain ⟨h1, h2, h3⟩ := ih x
      refine ⟨le_trans (le_of_lt hc) h1, ?_, ?_⟩
      · rcases h2 with h | h
        · refine Or.inr ?_
          rw [h]
          exact List.mem_cons_self _ _
        · exact Or.inr (List.mem_cons_of_mem _ h)
      · intro t ht
        rcases List.mem_cons.mp ht with rfl | ht2
        · exact h1
        · exact h3 t ht2
    · rw [if_neg hc]
      obtain ⟨h1, h2, h3⟩ := ih acc
      refine ⟨h1, ?_, ?_⟩
      · rcases h2 with h | h
        · exact Or.inl h
        · exact Or.inr (List.mem_cons_of_mem _ h)
      · intro t ht
        rcases List.mem_cons.mp ht with rfl | ht2
        · exact le_trans (le_of_not_lt hc) h1
        · exact h3 t ht2

theorem maxByUsage_mem {usage : List (String × Nat)} {forms : List String}
    (h : forms ≠ []) : maxByUsage usage forms ∈ forms := by
  cases forms with
  | nil => exact absurd rfl h
  | cons f fs =>
    show fs.foldl (fun best t => if usageOf usage best < usageOf usage t then t else best)
        f ∈ f :: fs
    rcases (fold_maxByUsage_invariant usage fs f).2.1 with he | hm
    · rw [he]; exact List.mem_cons_self _ _
    · exact List.mem_cons_of_mem _ hm

theorem maxByUsage_max {usage : List (String × Nat)} {forms : List String} :
    ∀ t ∈ forms, usageOf usage t ≤ usageOf usage (maxByUsage usage forms) := by
  intro t ht
  cases forms with
  | nil => cases ht
  | cons f fs =>
    show usageOf usage t ≤ usageOf usage
      (fs.foldl (fun best t => if usageOf usage best < usageOf usage t then t else best) f)
    obtain ⟨h1, _, h3⟩ := fold_maxByUsage_invariant usage fs f
    rcases List.mem_cons.mp ht with rfl | ht2
    · exact h1
    · exact h3 t ht2

/-- C8: `detect_tag_normalization` groups exact tag forms by lower-cased
string and, per multi-form group, retags every active entity carrying a
non-canonical form towards the most-used form: (a) the concrete
three-entity example emits exactly one RETAG on the `topic:Gateway`
entity, removing it and adding `topic:gateway`; (b) every emitted RETAG
removes one exact form carried by its active target and adds a
same-lowercase, distinct form whose usage count is at least the removed
form's; (c) conversely every active entity carrying a non-canonical
form of a multi-form group receives such a RETAG. -/
theorem tag_normalization_canonical :
    (detect_tag_normalization tagNormNeeds =
      [normAction "topic:Gateway" "topic:gateway" "MEM_1"]) ∧
    (∀ (needs : Needs) (a : Action), a ∈ detect_tag_normalization needs →
      ∃ form canonical kv, kv ∈ activeNeeds needs ∧
        a = normAction form canonical kv.1 ∧ form ∈ kv.2.tags ∧
        strLower form = strLower canonical ∧ form ≠ canonical ∧
        usageOf (tagUsage (activeNeeds needs)) form ≤
          usageOf (tagUsage (activeNeeds needs)) canonical) ∧
    (∀ (needs : Needs) (g : String × List String),
      g ∈ lowerGroups (tagUsage (activeNeeds needs)) → 1 < g.2.length →
      ∀ form ∈ g.2, form ≠ maxByUsage (tagUsage (activeNeeds needs)) g.2 →
      ∀ kv ∈ activeNeeds needs, form ∈ kv.2.tags →
        normAction form (maxByUsage (tagUsage (activeNeeds needs)) g.2) kv.1 ∈
          detect_tag_normalization needs) := by
  refine ⟨by decide, ?_, ?_⟩
  · intro needs a ha
    unfold detect_tag_normalization at ha
    obtain ⟨g, hg, hin⟩ := List.mem_flatMap.mp ha
    simp only at hin
    split at hin
    · cases hin
    · next hlen =>
      obtain ⟨form, hform, hin2⟩ := List.mem_flatMap.mp hin
      have hform2 := List.mem_filter.mp hform
      obtain ⟨kv, hkv, he⟩ := List.mem_filterMap.mp hin2
      split at he
      · next htag =>
        injection he with he2
        subst he2
        have hnonnil : g.2 ≠ [] := by
          intro hh; rw [hh] at hlen; simp at hlen
        have hcanmem := @maxByUsage_mem (tagUsage (activeNeeds needs)) g.2 hnonnil
        refine ⟨form, _, kv, hkv, rfl, htag, ?_, ?_, ?_⟩
        · rw [lowerGroups_lower g hg form hform2.1,
            lowerGroups_lower g hg _ hcanmem]
        · simpa using hform2.2
        · exact maxByUsage_max form hform2.1
      · cases he
  · intro needs g hg hlen form hform hneq kv hkv htag
    unfold detect_tag_normalization
    refine List.mem_flatMap.mpr ⟨g, hg, ?_⟩
    simp only
    rw [if_neg (by omega)]
    refine List.mem_flatMap.mpr ⟨form, List.mem_filter.mpr ⟨hform, by simpa using hneq⟩, ?_⟩
    refine List.mem_filterMap.mpr ⟨kv, hkv, ?_⟩
    rw [if_pos htag]

/-- Witness for C8 applying the completeness part at the concrete
three-entity snapshot. -/
theorem tag_normalization_canonical_witness :
    normAction "topic:Gateway" "topic:gateway" "MEM_1" ∈
      detect_tag_normalization tagNormNeeds :=
  tag_normalization_canonical.2.2 tagNormNeeds
    ("topic:gateway", ["topic:Gateway", "topic:gateway"]) (by decide) (by decide)
    "topic:Gateway" (by decide) (by decide)
    ("MEM_1", { tags := ["topic:Gateway"] }) (by decide) (by decide)

end AIMemory
